import Mathlib

/-!
# go-ratelimit: key derivation and tiered evaluation

A shallow embedding of `libstring/libstring.go`, `limiter/options.go`,
`limiter/limiter.go`, `limiter/pluggable_limiter.go` and `goratelimit.go`.

Conventions of the embedding.

* Go `int64` and `time.Duration` values are `Int`; only comparisons with zero
  and copies are performed on them, so no overflow can arise.
* A Go `error` is `Option Error` (`none` is `nil`).
* The counter store, the identity extractor and the additional-context
  extractor are caller supplied and may be stateful.  Each is a function of the
  history of effects performed so far (a `Trace`), and every invocation appends
  one `Event` carrying what was asked and what was answered.  Statements such as
  "no engine call is made" are statements about the trace.
* A run-time panic (calling a nil function value, calling a method of a nil
  `Store`) is the result `none`; the trace up to the panic is kept.
-/

namespace GoRateLimit

/-! ## Go library functions used by the sources -/

/-- Go `strings.Join`: the elements separated by `sep`. -/
def Join : List String → String → String
  | [], _ => ""
  | [a], _ => a
  | a :: b :: rest, sep => a ++ sep ++ Join (b :: rest) sep

/-- Go `strings.Split(s, ",")` on the characters of `s`: the pieces between
the commas, always at least one piece. -/
def splitComma : List Char → List (List Char)
  | [] => [[]]
  | c :: cs =>
    if c = ',' then [] :: splitComma cs
    else
      match splitComma cs with
      | [] => [[c]]
      | p :: ps => (c :: p) :: ps

/-- Go `unicode.IsSpace`. -/
def isSpace (c : Char) : Bool :=
  let n := c.toNat
  n = 0x09 || n = 0x0A || n = 0x0B || n = 0x0C || n = 0x0D || n = 0x20 ||
  n = 0x85 || n = 0xA0 || n = 0x1680 || (0x2000 ≤ n && n ≤ 0x200A) ||
  n = 0x2028 || n = 0x2029 || n = 0x202F || n = 0x205F || n = 0x3000

/-- Go `strings.TrimSpace` on a list of characters. -/
def TrimSpace (cs : List Char) : List Char :=
  ((cs.dropWhile isSpace).reverse.dropWhile isSpace).reverse

/-- Index of the first occurrence of `c`, Go `IndexByteString`. -/
def indexByte : List Char → Char → Option Nat
  | [], _ => none
  | x :: xs, c =>
    if x = c then some 0
    else
      match indexByte xs c with
      | none => none
      | some i => some (i + 1)

/-- Index of the last occurrence of `c`, Go `LastIndexByteString`. -/
def lastIndexByte : List Char → Char → Option Nat
  | [], _ => none
  | x :: xs, c =>
    match lastIndexByte xs c with
    | some i => some (i + 1)
    | none => if x = c then some 0 else none

/-- Go `net.SplitHostPort`: `some (host, port)` on success, `none` when the
library returns an error. -/
def SplitHostPort (hostport : List Char) : Option (List Char × List Char) :=
  match lastIndexByte hostport ':' with
  | none => none
  | some i =>
    if hostport.head? = some '[' then
      match indexByte hostport ']' with
      | none => none
      | some e =>
        if e + 1 = hostport.length then none
        else if e + 1 = i then
          if (hostport.drop 1).contains '[' then none
          else if (hostport.drop (e + 1)).contains ']' then none
          else some ((hostport.take e).drop 1, hostport.drop (i + 1))
        else none
    else
      if (hostport.take i).contains ':' then none
      else if hostport.contains '[' then none
      else if hostport.contains ']' then none
      else some (hostport.take i, hostport.drop (i + 1))

/-! ## Data model (`limiter/options.go`, `limiter/limiter.go`) -/

/-- A Go `error` value. -/
abbrev Error := String

/-- A Go `time.Duration`. -/
abbrev Duration := Int

/-- The part of `http.Request` the limiter reads: `Header` is
`r.Header.Get`, `Path` is `r.URL.Path`. -/
structure Request where
  Header : String → String
  RemoteAddr : String
  Path : String
  Method : String

/-- The `limiter.ExpirableOptions` record. -/
structure ExpirableOptions where
  DefaultExpirationTTL : Duration
  ExpireJobInterval : Int
  Suffix : String
  deriving DecidableEq, Repr

/-- The `limiter.Context` record, the decision of one counter check. -/
structure Context where
  Limit : Int
  Remaining : Int
  Reset : Int
  Reached : Bool
  deriving DecidableEq, Repr

/-- The Go zero value `Context{}`. -/
def Context.zero : Context := ⟨0, 0, 0, false⟩

/-- The method `(c *Context) LimitReached`. -/
def Context.LimitReached (c : Context) : Bool := c.Reached

/-- The library record `limiterlib.Rate` (period and limit). -/
structure Rate where
  Period : Duration
  Limit : Int
  deriving DecidableEq, Repr

/-- The call site of an engine call: which of the limiter's engine handles
was used. -/
inductive Tier where
  | request
  | global
  | pluggable (i : Nat)
  deriving DecidableEq, Repr

/-- One effect performed by the limiter, with the answer it received. -/
inductive Event where
  | userId (res : String × Option Error)
  | additional (params : List String) (res : String × Option Error)
  | get (tier : Tier) (key : String) (rate : Rate) (res : Context × Option Error)
  deriving DecidableEq, Repr

/-- The history of effects, oldest first. -/
abbrev Trace := List Event

/-- A decision together with a Go error. -/
abbrev Result := Context × Option Error

/-- The library interface `limiterlib.Store`: `Get(ctx, key, rate)` answers
from the history so far. -/
abbrev Store := Trace → String → Rate → Result

/-- The function type `FuncFetchFromContext`. -/
abbrev FuncFetchFromContext := Trace → Request → String × Option Error

/-- The function type `FuncFetchParamFromContext`. -/
abbrev FuncFetchParamFromContext :=
  Trace → Request → List String → String × Option Error

/-- The library record `limiterlib.Limiter`: a store (nil when absent) and a
rate. -/
structure LibLimiter where
  Store : Option Store
  Rate : Rate

/-- The record `limiter.Pluggable`. -/
structure Pluggable where
  E : ExpirableOptions
  L : LibLimiter

/-- The record `limiter.Limiter`.  `methods` is a Go map (`none` is the nil
map, entries have distinct keys); `pluggableLimiter` is a pointer to a slice
(`none` is nil); `limiter` and `globalLimiter` are always allocated by `New`. -/
structure Limiter where
  expiry : ExpirableOptions
  globalExpiry : ExpirableOptions
  ipLookups : List String
  methods : Option (List (String × Bool))
  queryParams : List String
  includeUserId : Bool
  message : String
  userIdFromContext : Option FuncFetchFromContext
  additionalContextFunc : Option FuncFetchParamFromContext
  additionalContextParams : List String
  ignoreURL : Bool
  limiter : LibLimiter
  globalLimiter : LibLimiter
  pluggableLimiter : Option (List Pluggable)

/-- The record `limiter.LimiterKeys`. -/
structure LimiterKeys where
  Global : List String
  Request : List String
  deriving DecidableEq, Repr

/-- The package-level variables of `limiter`: the shared store and the two
extractors installed by `Init`. -/
structure Globals where
  redisStore : Option Store
  FetchFromContext : Option FuncFetchFromContext
  AdditionalContext : Option FuncFetchParamFromContext

/-- The constant `KeyJoinIdentifier`. -/
def KeyJoinIdentifier : String := "|"

/-- The constant `RateLimitErrorMessage`. -/
def RateLimitErrorMessage : String := "You have reached maximum request limit."

/-! ## `libstring.RemoteIP` -/

/-- The body of the `X-Forwarded-For` branch of `RemoteIP`: split on commas,
trim every part, pick the part `forwardedForIndexFromBehind` places before the
last one, clamped to the first. -/
def forwardedPart (forwardedFor : String) (forwardedForIndexFromBehind : Nat) : String :=
  let parts := (splitComma forwardedFor.data).map TrimSpace
  let partIndex : Int := (parts.length : Int) - 1 - (forwardedForIndexFromBehind : Int)
  let partIndex : Int := if partIndex < 0 then 0 else partIndex
  String.mk (parts.getD partIndex.toNat [])

/-- The loop of `RemoteIP` over the lookup order. -/
def remoteIPLoop (cfConnectingIP realIP forwardedFor : String)
    (forwardedForIndexFromBehind : Nat) (r : Request) : List String → String
  | [] => ""
  | lookup :: rest =>
    if lookup = "CF-Connecting-IP" ∧ cfConnectingIP ≠ "" then cfConnectingIP
    else if lookup = "RemoteAddr" then
      match SplitHostPort r.RemoteAddr.data with
      | none => r.RemoteAddr
      | some (ip, _) => String.mk ip
    else if lookup = "X-Forwarded-For" ∧ forwardedFor ≠ "" then
      forwardedPart forwardedFor forwardedForIndexFromBehind
    else if lookup = "X-Real-IP" ∧ realIP ≠ "" then realIP
    else remoteIPLoop cfConnectingIP realIP forwardedFor forwardedForIndexFromBehind r rest

/-- The function `libstring.RemoteIP`.  The offset is a natural number: the
only caller passes `100`. -/
def RemoteIP (ipLookups : List String) (forwardedForIndexFromBehind : Nat)
    (r : Request) : String :=
  remoteIPLoop (r.Header "CF-Connecting-IP") (r.Header "X-Real-IP")
    (r.Header "X-Forwarded-For") forwardedForIndexFromBehind r ipLookups

/-! ## `limiter/limiter.go` -/

/-- The method `SetLimits`. -/
def Limiter.SetLimits (l : Limiter) (limit : Int) : Limiter :=
  { l with expiry := { l.expiry with ExpireJobInterval := limit } }

/-- The method `GetLimits`. -/
def Limiter.GetLimits (l : Limiter) : Int := l.expiry.ExpireJobInterval

/-- The method `SetTtl`. -/
def Limiter.SetTtl (l : Limiter) (ttl : Duration) : Limiter :=
  { l with expiry := { l.expiry with DefaultExpirationTTL := ttl } }

/-- The method `GetTtl`. -/
def Limiter.GetTtl (l : Limiter) : Duration := l.expiry.DefaultExpirationTTL

/-- The method `SetGlobalLimits`. -/
def Limiter.SetGlobalLimits (l : Limiter) (limit : Int) : Limiter :=
  { l with globalExpiry := { l.globalExpiry with ExpireJobInterval := limit } }

/-- The method `GetGlobalLimits`. -/
def Limiter.GetGlobalLimits (l : Limiter) : Int := l.globalExpiry.ExpireJobInterval

/-- The method `SetGlobalTtl`. -/
def Limiter.SetGlobalTtl (l : Limiter) (ttl : Duration) : Limiter :=
  { l with globalExpiry := { l.globalExpiry with DefaultExpirationTTL := ttl } }

/-- The method `GetGlobalTtl`. -/
def Limiter.GetGlobalTtl (l : Limiter) : Duration := l.globalExpiry.DefaultExpirationTTL

/-- The method `SetIPLookups`. -/
def Limiter.SetIPLookups (l : Limiter) (ipLookups : List String) : Limiter :=
  { l with ipLookups := ipLookups }

/-- The method `GetIPLookups`. -/
def Limiter.GetIPLookups (l : Limiter) : List String := l.ipLookups

/-- Go map assignment `m[k] = v` on the entries of an allocated map: the entry
for `k` is replaced or added. -/
def mapAssign (m : List (String × Bool)) (k : String) (v : Bool) : List (String × Bool) :=
  (k, v) :: m.filter fun e => e.1 ≠ k

/-- The method `SetMethods`.  `ToUpper` is Go `strings.ToUpper`.  Assigning to
an entry of a nil map panics. -/
def Limiter.SetMethods (l : Limiter) (ToUpper : String → String) :
    List String → Option Limiter
  | [] => some l
  | method :: rest =>
    match l.methods with
    | none => none
    | some m =>
      Limiter.SetMethods { l with methods := some (mapAssign m (ToUpper method) true) }
        ToUpper rest

/-- The method `GetMethods`: the request method when the map of tracked
methods is empty or maps the method to `true`, the empty string otherwise.
Reading a nil map behaves as reading an empty one. -/
def Limiter.GetMethods (l : Limiter) (r : Request) : String :=
  if (l.methods.getD []).length = 0 then r.Method
  else
    match (l.methods.getD []).lookup r.Method with
    | some true => r.Method
    | _ => ""

/-- The method `SetQueryParams`. -/
def Limiter.SetQueryParams (l : Limiter) (queryParams : List String) : Limiter :=
  { l with queryParams := queryParams }

/-- The method `SetUserIdFromContext`. -/
def Limiter.SetUserIdFromContext (l : Limiter) (f : Option FuncFetchFromContext) : Limiter :=
  { l with userIdFromContext := f }

/-- The method `GetUserIdFromContext`: `("", nil)` when no extractor is set,
otherwise one invocation of the extractor. -/
def Limiter.GetUserIdFromContext (l : Limiter) (r : Request) (t : Trace) :
    (String × Option Error) × Trace :=
  match l.userIdFromContext with
  | none => (("", none), t)
  | some f => (f t r, t ++ [Event.userId (f t r)])

/-- The method `SetAdditionalContextFunc`. -/
def Limiter.SetAdditionalContextFunc (l : Limiter)
    (f : Option FuncFetchParamFromContext) : Limiter :=
  { l with additionalContextFunc := f }

/-- The method `SetAdditionalContextParam`. -/
def Limiter.SetAdditionalContextParam (l : Limiter) (params : List String) : Limiter :=
  { l with additionalContextParams := params }

/-- The method `GetAdditionalContextParam`: it calls the function value
without testing it, so a nil function value panics. -/
def Limiter.GetAdditionalContextParam (l : Limiter) (r : Request) (t : Trace) :
    Option (String × Option Error) × Trace :=
  match l.additionalContextFunc with
  | none => (none, t)
  | some f =>
    (some (f t r l.additionalContextParams),
      t ++ [Event.additional l.additionalContextParams (f t r l.additionalContextParams)])

/-- The method `SetIncludeUserId`. -/
def Limiter.SetIncludeUserId (l : Limiter) (includeUserId : Bool) : Limiter :=
  { l with includeUserId := includeUserId }

/-- The method `GetIncludeUserId`. -/
def Limiter.GetIncludeUserId (l : Limiter) : Bool := l.includeUserId

/-- The method `SetErrorMessage`. -/
def Limiter.SetErrorMessage (l : Limiter) (message : String) : Limiter :=
  { l with message := message }

/-- The method `GetErrorMessage`. -/
def Limiter.GetErrorMessage (l : Limiter) : String := l.message

/-- The method `SetIgnoreURL`. -/
def Limiter.SetIgnoreURL (l : Limiter) (enabled : Bool) : Limiter :=
  { l with ignoreURL := enabled }

/-- The method `GetIgnoreURL`. -/
def Limiter.GetIgnoreURL (l : Limiter) : Bool := l.ignoreURL

/-- The Go zero value `&Limiter{}` extended with the two engine handles,
which `New` allocates before returning. -/
def Limiter.empty : Limiter :=
  { expiry := ⟨0, 0, ""⟩
    globalExpiry := ⟨0, 0, ""⟩
    ipLookups := []
    methods := none
    queryParams := []
    includeUserId := false
    message := ""
    userIdFromContext := none
    additionalContextFunc := none
    additionalContextParams := []
    ignoreURL := false
    limiter := ⟨none, ⟨0, 0⟩⟩
    globalLimiter := ⟨none, ⟨0, 0⟩⟩
    pluggableLimiter := none }

/-- The constant `1 * time.Minute` in nanoseconds. -/
def Minute : Duration := 60000000000

/-- The constructor `limiter.New`, reading the package-level variables `g`. -/
def New (g : Globals) (generalExpirableOptions : Option ExpirableOptions) : Limiter :=
  let lmt := Limiter.empty
  let lmt :=
    match generalExpirableOptions with
    | none => lmt
    | some o =>
      let lmt := if o.DefaultExpirationTTL ≠ 0 then lmt.SetTtl o.DefaultExpirationTTL else lmt
      if o.ExpireJobInterval ≠ 0 then lmt.SetLimits o.ExpireJobInterval else lmt
  let lmt := if lmt.GetTtl = 0 then lmt.SetTtl (1 * Minute) else lmt
  let lmt := if lmt.GetLimits = 0 then lmt.SetLimits 5 else lmt
  let lmt := if lmt.GetGlobalTtl = 0 then lmt.SetGlobalTtl (1 * Minute) else lmt
  let lmt := if lmt.GetGlobalLimits = 0 then lmt.SetGlobalLimits 12 else lmt
  let lmt := lmt.SetIPLookups ["CF-Connecting-IP", "X-Forwarded-For", "RemoteAddr", "X-Real-IP"]
  let lmt := lmt.SetIncludeUserId g.FetchFromContext.isSome
  let lmt := lmt.SetUserIdFromContext g.FetchFromContext
  let lmt := lmt.SetAdditionalContextFunc g.AdditionalContext
  let lmt := lmt.SetErrorMessage RateLimitErrorMessage
  let lmt := { lmt with limiter := ⟨g.redisStore, ⟨lmt.GetTtl, lmt.GetLimits⟩⟩ }
  { lmt with globalLimiter := ⟨g.redisStore, ⟨lmt.GetGlobalTtl, lmt.GetGlobalLimits⟩⟩ }

/-- The library method `(*limiterlib.Limiter).Get`: it forwards to
`Store.Get(ctx, key, limiter.Rate)`; a nil store panics.  `tier` records the
call site in the trace. -/
def LibLimiter.Get (l : LibLimiter) (tier : Tier) (key : String) (t : Trace) :
    Option Result × Trace :=
  match l.Store with
  | none => (none, t)
  | some s => (some (s t key l.Rate), t ++ [Event.get tier key l.Rate (s t key l.Rate)])

/-- The method `IsInitialised`. -/
def Limiter.IsInitialised (l : Limiter) : Bool := l.limiter.Store.isSome

/-- The method `LimitReached`, the request-tier check. -/
def Limiter.LimitReached (l : Limiter) (key : String) (t : Trace) : Option Result × Trace :=
  if !l.IsInitialised then (some (Context.zero, none), t)
  else
    match l.limiter.Get Tier.request key t with
    | (none, t1) => (none, t1)
    | (some (_, some err), t1) => (some (Context.zero, some err), t1)
    | (some (lctx, none), t1) => (some (lctx, none), t1)

/-- The method `GlobalLimitReached`, the global-tier check. -/
def Limiter.GlobalLimitReached (l : Limiter) (key : String) (t : Trace) :
    Option Result × Trace :=
  if !l.IsInitialised then (some (Context.zero, none), t)
  else
    match l.globalLimiter.Get Tier.global key t with
    | (none, t1) => (none, t1)
    | (some (_, some err), t1) => (some (Context.zero, some err), t1)
    | (some (lctx, none), t1) => (some (lctx, none), t1)

/-! ## `limiter/pluggable_limiter.go` -/

/-- The constructor `NewPluggableLimiter`, reading the package-level store. -/
def NewPluggableLimiter (redisStore : Option Store) (eo : List ExpirableOptions) :
    List Pluggable :=
  eo.map fun e => ⟨e, ⟨redisStore, ⟨e.DefaultExpirationTTL, e.ExpireJobInterval⟩⟩⟩

/-- The method `SetPluggableLimiter`. -/
def Limiter.SetPluggableLimiter (l : Limiter) (g : Globals) (eo : List ExpirableOptions) :
    Limiter :=
  { l with pluggableLimiter := some (NewPluggableLimiter g.redisStore eo) }

/-- The loop of `IsPluggableLimiterValid` with its accumulator `isValid`. -/
def isPluggableLimiterValidLoop : List Pluggable → Bool → Bool
  | [], isValid => isValid
  | p :: rest, isValid =>
    if p.L.Store.isNone then isPluggableLimiterValidLoop rest isValid
    else if p.E.Suffix = "" then isPluggableLimiterValidLoop rest isValid
    else isPluggableLimiterValidLoop rest true

/-- The method `IsPluggableLimiterValid`. -/
def Limiter.IsPluggableLimiterValid (l : Limiter) : Bool :=
  match l.pluggableLimiter with
  | none => false
  | some pl => isPluggableLimiterValidLoop pl false

/-- The method `pluggableLimiterValidator` for the tier at index `i`. -/
def pluggableLimiterValidator (p : Pluggable) (i : Nat) (key : String) (t : Trace) :
    Option Result × Trace :=
  if p.E.Suffix = "" then (some (Context.zero, none), t)
  else if p.L.Store.isNone then (some (Context.zero, none), t)
  else
    match p.L.Get (Tier.pluggable i) (Join [key, p.E.Suffix] KeyJoinIdentifier) t with
    | (none, t1) => (none, t1)
    | (some (_, some lerr), t1) => (some (Context.zero, some lerr), t1)
    | (some (lctxi, none), t1) => (some (lctxi, none), t1)

/-- The loop of `PluggableLimitReached`; `acc` holds the named results
`lctx, err`, `i` is the index of the head of the remaining tiers. -/
def pluggableLimitReachedLoop (key : String) :
    List Pluggable → Nat → Result → Trace → Option Result × Trace
  | [], _, acc, t => (some acc, t)
  | p :: rest, i, _, t =>
    match pluggableLimiterValidator p i key t with
    | (none, t1) => (none, t1)
    | (some (lctx, some err), t1) => (some (lctx, some err), t1)
    | (some (lctx, none), t1) =>
      if lctx.LimitReached then (some (lctx, none), t1)
      else pluggableLimitReachedLoop key rest (i + 1) (lctx, none) t1

/-- The method `PluggableLimitReached`. -/
def Limiter.PluggableLimitReached (l : Limiter) (key : String) (t : Trace) :
    Option Result × Trace :=
  if !l.IsPluggableLimiterValid then (some (Context.zero, none), t)
  else
    match l.pluggableLimiter with
    | none => (none, t)
    | some pl => pluggableLimitReachedLoop key pl 0 (Context.zero, none) t

/-! ## `limiter/options.go` -/

/-- The method `IsGlobalValid`. -/
def LimiterKeys.IsGlobalValid (l : LimiterKeys) : Bool := decide (l.Global.length > 0)

/-- The method `LimiterKeysValue.GlobalLimits`. -/
def GlobalLimits (lv : List String) (lmt : Limiter) (t : Trace) : Option Result × Trace :=
  lmt.GlobalLimitReached (Join lv KeyJoinIdentifier) t

/-- The method `LimiterKeysValue.PluggableLimits`. -/
def PluggableLimits (lv : List String) (lmt : Limiter) (t : Trace) : Option Result × Trace :=
  lmt.PluggableLimitReached (Join lv KeyJoinIdentifier) t

/-- The method `LimiterKeysValue.Limits`. -/
def Limits (lv : List String) (lmt : Limiter) (t : Trace) : Option Result × Trace :=
  lmt.LimitReached (Join lv KeyJoinIdentifier) t

/-! ## `goratelimit.go` -/

/-- The function `NewLimiter`. -/
def NewLimiter (g : Globals) (max : Int) (ttl : Duration) : Limiter :=
  New g (some ⟨ttl, max, ""⟩)

/-- The variable `userIdToLimit` of `BuildKeys` after its lines 43-50: the
identity extractor is invoked only when `includeUserId` is set, and its value
is kept only when it returns no error. -/
def userIdToLimit (lmt : Limiter) (r : Request) (t : Trace) : String × Trace :=
  if lmt.GetIncludeUserId then
    match lmt.GetUserIdFromContext r t with
    | ((userId, none), t1) => (userId, t1)
    | ((_, some _), t1) => ("", t1)
  else ("", t)

/-- The function `BuildKeys`.  The error of the additional-context extractor
is discarded. -/
def BuildKeys (lmt : Limiter) (r : Request) (t : Trace) : Option LimiterKeys × Trace :=
  let remoteIP := RemoteIP lmt.GetIPLookups 100 r
  let path := r.Path
  match userIdToLimit lmt r t with
  | (userIdToLimit, t1) =>
    let global := if userIdToLimit.length = 0 then [remoteIP] else []
    let sliceKey := [remoteIP]
    let sliceKey := if !lmt.GetIgnoreURL then sliceKey ++ [path] else sliceKey
    let lmtMethod := lmt.GetMethods r
    match lmt.GetAdditionalContextParam r t1 with
    | (none, t2) => (none, t2)
    | (some (additionalContext, _), t2) =>
      let sliceKey := sliceKey ++ [lmtMethod]
      let sliceKey := sliceKey ++ [userIdToLimit]
      let sliceKey := sliceKey ++ [additionalContext]
      (some ⟨global, sliceKey⟩, t2)

/-- The variable `userIdPresent` of `ShouldSkipLimiter` after its lines
81-86. -/
def userIdPresent (lmt : Limiter) (r : Request) (t : Trace) : Bool × Trace :=
  if lmt.GetIncludeUserId then
    match lmt.GetUserIdFromContext r t with
    | ((userId, none), t1) => (decide (userId ≠ ""), t1)
    | ((_, some _), t1) => (false, t1)
  else (false, t)

/-- The function `ShouldSkipLimiter`. -/
def ShouldSkipLimiter (lmt : Limiter) (r : Request) (t : Trace) : Bool × Trace :=
  let remoteIPPresent := decide (RemoteIP lmt.GetIPLookups 100 r ≠ "")
  match userIdPresent lmt r t with
  | (userIdPresent, t1) => (!remoteIPPresent && !userIdPresent, t1)

/-- The function `LimitByRequest`. -/
def LimitByRequest (lmt : Limiter) (r : Request) (t : Trace) : Option Result × Trace :=
  match ShouldSkipLimiter lmt r t with
  | (true, t1) => (some (Context.zero, none), t1)
  | (false, t1) =>
    match BuildKeys lmt r t1 with
    | (none, t2) => (none, t2)
    | (some sliceKeys, t2) =>
      if sliceKeys.IsGlobalValid then
        match PluggableLimits sliceKeys.Global lmt t2 with
        | (none, t3) => (none, t3)
        | (some (lmtCtx, err), t3) =>
          if err.isSome || lmtCtx.LimitReached then (some (lmtCtx, err), t3)
          else
            match GlobalLimits sliceKeys.Global lmt t3 with
            | (none, t4) => (none, t4)
            | (some (lmtCtx, err), t4) =>
              if err.isSome || lmtCtx.LimitReached then (some (lmtCtx, err), t4)
              else Limits sliceKeys.Request lmt t4
      else Limits sliceKeys.Request lmt t2

/-! ## Observations on traces -/

/-- An engine call: an invocation of `Store.Get` from any tier. -/
def Event.isGet : Event → Bool
  | Event.get _ _ _ _ => true
  | _ => false

/-- An engine call made through the global-tier handle. -/
def Event.isGlobalGet : Event → Bool
  | Event.get Tier.global _ _ _ => true
  | _ => false

/-- An engine call made through the request-tier handle. -/
def Event.isRequestGet : Event → Bool
  | Event.get Tier.request _ _ _ => true
  | _ => false

/-- An engine call made through the handle of some pluggable tier. -/
def Event.isPluggableGet : Event → Bool
  | Event.get (Tier.pluggable _) _ _ _ => true
  | _ => false

/-- An engine call that returned an error. -/
def Event.failed : Event → Bool
  | Event.get _ _ _ (_, some _) => true
  | _ => false

/-- The events appended to the history `t` by a run that ended with the
history `t1`. -/
def newEvents (t t1 : Trace) : List Event := t1.drop t.length

/-- A pluggable tier takes part in the evaluation: its suffix is not empty and
its engine handle has a store. -/
def Pluggable.valid (p : Pluggable) : Bool := p.E.Suffix ≠ "" && p.L.Store.isSome

/-- The history `t1` extends the history `t` by events that all satisfy `P`. -/
def Appends (P : Event → Bool) (t t1 : Trace) : Prop :=
  ∃ ext, t1 = t ++ ext ∧ ∀ ev ∈ ext, P ev = true

/-- An invocation of one of the two extractors, that is, not an engine call. -/
def Event.isExtract (ev : Event) : Bool := !ev.isGet

/-- No engine call recorded in `ext` returned an error. -/
def NoFail (ext : List Event) : Prop := ∀ ev ∈ ext, ev.failed = false

/-- Either no engine call of `ext` failed, or the last event of `ext` is the
only failed engine call and `res` is its error with the zero decision. -/
def ErrorLast (res : Option Result) (ext : List Event) : Prop :=
  NoFail ext ∨
    ∃ init tier key rate c e,
      ext = init ++ [Event.get tier key rate (c, some e)] ∧ NoFail init ∧
        res = some (Context.zero, some e)

/-- A step that started with the history `t` and ended with `out` appended only
events satisfying `P`, and any failed engine call among them ended the step. -/
def Phase (P : Event → Bool) (t : Trace) (out : Option Result × Trace) : Prop :=
  ∃ ext, out.2 = t ++ ext ∧ (∀ ev ∈ ext, P ev = true) ∧ ErrorLast out.1 ext

/-- An engine call that returned no error and a decision that is not
`Reached`. -/
def Event.passed : Event → Bool
  | Event.get _ _ _ (c, none) => !c.Reached
  | _ => false

/-- What an engine call asked: the handle, the key and the rate. -/
def Event.call : Event → Option (Tier × String × Rate)
  | Event.get tier key rate _ => some (tier, key, rate)
  | _ => none

/-- The event of checking the pluggable tier `p`, registered at index `i`,
against the base key `key` at the history `t`: one engine call on
`key|suffix` under the rate of the tier when the tier is valid, nothing when it
is inert. -/
def pluggableEvent (p : Pluggable) (i : Nat) (key : String) (t : Trace) : List Event :=
  if p.E.Suffix = "" then []
  else
    match p.L.Store with
    | none => []
    | some s =>
      [Event.get (Tier.pluggable i) (key ++ "|" ++ p.E.Suffix) p.L.Rate
        (s t (key ++ "|" ++ p.E.Suffix) p.L.Rate)]

/-- The events of checking every tier of `ps` in registration order, the first
of them registered at index `i`, each check made at the history left by the
checks before it. -/
def chainEvents (key : String) : List Pluggable → Nat → Trace → List Event
  | [], _, _ => []
  | p :: rest, i, t =>
    pluggableEvent p i key t ++ chainEvents key rest (i + 1) (t ++ pluggableEvent p i key t)

/-- The engine calls of the valid tiers of `ps` in registration order, the
first tier registered at index `i`. -/
def pluggableCalls (key : String) : List Pluggable → Nat → List (Tier × String × Rate)
  | [], _ => []
  | p :: rest, i =>
    if p.valid then
      (Tier.pluggable i, key ++ "|" ++ p.E.Suffix, p.L.Rate) :: pluggableCalls key rest (i + 1)
    else pluggableCalls key rest (i + 1)

/-- The result a check hands back for the answer `res` of its engine call: the
error with the zero decision when the call failed, the decision otherwise. -/
def surfaced : Result → Result
  | (_, some err) => (Context.zero, some err)
  | (lctx, none) => (lctx, none)

/-- What the source named `lookup` yields for a request: a header value, the
selected entry of a non-empty forwarded chain, or the host of `RemoteAddr`
(`RemoteAddr` itself when it cannot be split); the empty string for an unknown
name. -/
def sourceValue (N : Nat) (r : Request) (lookup : String) : String :=
  if lookup = "CF-Connecting-IP" then r.Header "CF-Connecting-IP"
  else if lookup = "RemoteAddr" then
    match SplitHostPort r.RemoteAddr.data with
    | none => r.RemoteAddr
    | some (ip, _) => String.mk ip
  else if lookup = "X-Forwarded-For" then
    if r.Header "X-Forwarded-For" = "" then "" else forwardedPart (r.Header "X-Forwarded-For") N
  else if lookup = "X-Real-IP" then r.Header "X-Real-IP"
  else ""

/-- The address resolution as the specification words it: the value of the
first source in the order that yields a non-empty value, the empty string when
there is none. -/
def firstNonEmpty (N : Nat) (r : Request) : List String → String
  | [] => ""
  | lookup :: rest =>
    if sourceValue N r lookup ≠ "" then sourceValue N r lookup else firstNonEmpty N r rest

/-- The address resolution with `RemoteAddr` ending the walk: the value of the
first source in the order that is `RemoteAddr` or yields a non-empty value, the
empty string when there is none. -/
def firstApplying (N : Nat) (r : Request) : List String → String
  | [] => ""
  | lookup :: rest =>
    if lookup = "RemoteAddr" ∨ sourceValue N r lookup ≠ "" then sourceValue N r lookup
    else firstApplying N r rest

/-- An engine call is keyed by the address `ip`: a global-tier call is made on
`ip`, a pluggable call through the handle at index `i` is made on `ip|suffix`
under the rate of the tier registered at `i`, which is valid.  Request-tier
calls and extractor events are not constrained. -/
def Event.keyedBy (ip : String) (pl : List Pluggable) : Event → Bool
  | Event.get Tier.global key _ _ => decide (key = ip)
  | Event.get (Tier.pluggable i) key rate _ =>
    match pl.get? i with
    | some p => p.valid && decide (key = ip ++ "|" ++ p.E.Suffix) && decide (rate = p.L.Rate)
    | none => false
  | _ => true

/-- Serving the requests `rs` one after the other, each on the history left by
the ones before; the decisions are listed in order. -/
def serve (lmt : Limiter) : List Request → Trace → List (Option Result) × Trace
  | [], t => ([], t)
  | r :: rs, t =>
    match LimitByRequest lmt r t with
    | (res, t1) =>
      match serve lmt rs t1 with
      | (out, t2) => (res :: out, t2)

/-! ## Sample configurations -/

/-- Headers carrying only `CF-Connecting-IP`. -/
def sampleHeader : String → String :=
  fun k => if k = "CF-Connecting-IP" then "203.0.113.7" else ""

/-- An anonymous `GET /` from `203.0.113.7`. -/
def sampleRequest : Request := ⟨sampleHeader, "", "/", "GET"⟩

/-- A `GET /` without any address: no header and an empty `RemoteAddr`, as
`http.NewRequest` builds it. -/
def bareRequest : Request := ⟨fun _ => "", "", "/", "GET"⟩

/-- A store that admits every call. -/
def allowStore : Store := fun _ _ rate => (⟨rate.Limit, 1, 1, false⟩, none)

/-- A store that denies every call. -/
def denyStore : Store := fun _ _ rate => (⟨rate.Limit, 0, 1, true⟩, none)

/-- A store that denies exactly the calls made under a limit of zero. -/
def zeroLimitStore : Store := fun _ _ rate => (⟨rate.Limit, 0, 1, decide (rate.Limit = 0)⟩, none)

/-- A store whose every call fails. -/
def failStore : Store := fun _ _ rate => (⟨rate.Limit, 0, 1, true⟩, some "store down")

/-- An identity extractor that finds `alice`. -/
def aliceUser : FuncFetchFromContext := fun _ _ => ("alice", none)

/-- An additional-context extractor that returns `ctx`. -/
def sampleContext : FuncFetchParamFromContext := fun _ _ _ => ("ctx", none)

/-- A `GET /` that carries only `X-Real-IP`, with an empty `RemoteAddr`. -/
def realIPRequest : Request :=
  ⟨fun k => if k = "X-Real-IP" then "198.51.100.4" else "", "", "/", "GET"⟩

/-- A `GET /` from `10.0.0.1:8080` behind the chain ` 1.1.1.1 , 2.2.2.2 ,3.3.3.3`. -/
def forwardedRequest : Request :=
  ⟨fun k => if k = "X-Forwarded-For" then " 1.1.1.1 , 2.2.2.2 ,3.3.3.3" else "",
    "10.0.0.1:8080", "/", "GET"⟩

/-- An anonymous `GET` of `path` from `203.0.113.7`. -/
def pathRequest (path : String) : Request := ⟨sampleHeader, "", path, "GET"⟩

/-- An additional-context extractor that fails and still returns a string. -/
def brokenContext : FuncFetchParamFromContext := fun _ _ _ => ("partial", some "lookup failed")

/-- The number of engine calls on `key` recorded in a history. -/
def callsOn (key : String) : Trace → Nat
  | [] => 0
  | Event.get _ k _ _ :: rest => (if k = key then 1 else 0) + callsOn key rest
  | _ :: rest => callsOn key rest

/-- A counter store with one window: the call number `n` on a key is admitted
while `n` is at most the limit of the rate. -/
def countingStore : Store := fun t key rate =>
  (⟨rate.Limit, ((rate.Limit - ((callsOn key t : Nat) + 1 : Int)).toNat : Int),
    1, decide (rate.Limit < ((callsOn key t : Nat) + 1 : Int))⟩, none)

/-- An identity extractor that finds `alice` on its first invocation in an
empty history and nobody afterwards. -/
def flipUser : FuncFetchFromContext :=
  fun t _ => if t = [] then ("alice", none) else ("", none)

/-- Thirteen distinct paths. -/
def thirteenPaths : List String :=
  ["/1", "/2", "/3", "/4", "/5", "/6", "/7", "/8", "/9", "/10", "/11", "/12", "/13"]

/-- The package state before `Init`: nothing configured. -/
def noGlobals : Globals := ⟨none, none, none⟩

/-! ## Histories only grow -/

/-- A Go string has length zero exactly when it is the empty string. -/
theorem length_eq_zero_iff_empty (s : String) : s.length = 0 ↔ s = "" := by
  constructor
  · intro h
    have h1 : s.data = [] := List.length_eq_zero.mp h
    exact String.ext h1
  · intro h
    subst h
    rfl

/-- Every history extends itself. -/
theorem Appends.refl (P : Event → Bool) (t : Trace) : Appends P t t :=
  ⟨[], by simp, by simp⟩

/-- Appending one event satisfying `P`. -/
theorem Appends.single (P : Event → Bool) (t : Trace) (ev : Event) (h : P ev = true) :
    Appends P t (t ++ [ev]) :=
  ⟨[ev], rfl, by simpa using h⟩

/-- Extensions compose. -/
theorem Appends.trans {P : Event → Bool} {t t1 t2 : Trace}
    (h1 : Appends P t t1) (h2 : Appends P t1 t2) : Appends P t t2 := by
  obtain ⟨e1, rfl, p1⟩ := h1
  obtain ⟨e2, rfl, p2⟩ := h2
  refine ⟨e1 ++ e2, by simp, ?_⟩
  intro ev hev
  rcases List.mem_append.mp hev with h | h
  · exact p1 ev h
  · exact p2 ev h

/-- An extension stays one under a weaker predicate. -/
theorem Appends.weaken {P Q : Event → Bool} {t t1 : Trace}
    (hPQ : ∀ ev, P ev = true → Q ev = true) (h : Appends P t t1) : Appends Q t t1 := by
  obtain ⟨e1, rfl, p1⟩ := h
  exact ⟨e1, rfl, fun ev hev => hPQ ev (p1 ev hev)⟩

/-- `GetUserIdFromContext` appends at most an extractor event. -/
theorem GetUserIdFromContext_trace (lmt : Limiter) (r : Request) (t : Trace) :
    Appends Event.isExtract t (lmt.GetUserIdFromContext r t).2 := by
  unfold Limiter.GetUserIdFromContext
  cases lmt.userIdFromContext with
  | none => exact Appends.refl _ _
  | some f => exact Appends.single _ _ _ rfl

/-- `GetAdditionalContextParam` appends at most an extractor event. -/
theorem GetAdditionalContextParam_trace (lmt : Limiter) (r : Request) (t : Trace) :
    Appends Event.isExtract t (lmt.GetAdditionalContextParam r t).2 := by
  unfold Limiter.GetAdditionalContextParam
  cases lmt.additionalContextFunc with
  | none => exact Appends.refl _ _
  | some f => exact Appends.single _ _ _ rfl

/-- Resolving the identity in `BuildKeys` appends at most an extractor event. -/
theorem userIdToLimit_trace (lmt : Limiter) (r : Request) (t : Trace) :
    Appends Event.isExtract t (userIdToLimit lmt r t).2 := by
  have h := GetUserIdFromContext_trace lmt r t
  unfold userIdToLimit
  by_cases hi : lmt.GetIncludeUserId = true
  · rcases hres : lmt.GetUserIdFromContext r t with ⟨⟨u, _ | e⟩, t1⟩ <;>
      simpa [hi, hres] using h
  · simpa [hi] using Appends.refl _ t

/-- Resolving the identity in `ShouldSkipLimiter` appends at most an extractor event. -/
theorem userIdPresent_trace (lmt : Limiter) (r : Request) (t : Trace) :
    Appends Event.isExtract t (userIdPresent lmt r t).2 := by
  have h := GetUserIdFromContext_trace lmt r t
  unfold userIdPresent
  by_cases hi : lmt.GetIncludeUserId = true
  · rcases hres : lmt.GetUserIdFromContext r t with ⟨⟨u, _ | e⟩, t1⟩ <;>
      simpa [hi, hres] using h
  · simpa [hi] using Appends.refl _ t

/-- `ShouldSkipLimiter` makes no engine call. -/
theorem ShouldSkipLimiter_trace (lmt : Limiter) (r : Request) (t : Trace) :
    Appends Event.isExtract t (ShouldSkipLimiter lmt r t).2 := by
  simpa [ShouldSkipLimiter] using userIdPresent_trace lmt r t

/-- `BuildKeys` makes no engine call. -/
theorem BuildKeys_trace (lmt : Limiter) (r : Request) (t : Trace) :
    Appends Event.isExtract t (BuildKeys lmt r t).2 := by
  have h := userIdToLimit_trace lmt r t
  unfold BuildKeys
  rcases hu : userIdToLimit lmt r t with ⟨u, t1⟩
  rw [hu] at h
  have h2 := GetAdditionalContextParam_trace lmt r t1
  rcases hadd : lmt.GetAdditionalContextParam r t1 with ⟨_ | ⟨a, ae⟩, t2⟩ <;>
    · rw [hadd] at h2
      simpa [hadd] using h.trans h2

/-- C1. A request whose resolved address is empty and that has no identity
(identity tracking is off, or the extractor fails, or it returns the empty
string) gets the zero decision with a nil error, and every event the call
appends to the history is not an engine call. -/
theorem skipped_request_zero_decision (lmt : Limiter) (r : Request) (t : Trace)
    (hip : RemoteIP lmt.GetIPLookups 100 r = "")
    (hid : lmt.GetIncludeUserId = false ∨ (lmt.GetUserIdFromContext r t).1.2 ≠ none ∨
      (lmt.GetUserIdFromContext r t).1.1 = "") :
    (LimitByRequest lmt r t).1 = some (Context.zero, none) ∧
    ∃ ext, (LimitByRequest lmt r t).2 = t ++ ext ∧ ∀ ev ∈ ext, ev.isGet = false := by
  have hskip : (ShouldSkipLimiter lmt r t).1 = true := by
    unfold ShouldSkipLimiter userIdPresent
    by_cases hi : lmt.GetIncludeUserId = true
    · rcases hid with h | h | h
      · simp [hi] at h
      · rcases hres : lmt.GetUserIdFromContext r t with ⟨⟨u, _ | e⟩, t1⟩
        · simp [hres] at h
        · simp [hi, hres, hip]
      · rcases hres : lmt.GetUserIdFromContext r t with ⟨⟨u, _ | e⟩, t1⟩
        · simp [hres] at h
          simp [hi, hres, hip, h]
        · simp [hi, hres, hip]
    · simp [hi, hip]
  obtain ⟨ext, hext, hget⟩ := ShouldSkipLimiter_trace lmt r t
  rcases hs : ShouldSkipLimiter lmt r t with ⟨b, t1⟩
  rw [hs] at hskip hext
  simp only at hskip hext
  subst hskip
  unfold LimitByRequest
  rw [hs]
  refine ⟨rfl, ext, hext, ?_⟩
  intro ev hev
  simpa [Event.isExtract] using hget ev hev

/-- C1 (witness): a request without any address on a limiter that tracks no
identity. -/
theorem skipped_request_zero_decision_witness :
    (LimitByRequest (New noGlobals none) bareRequest []).1 = some (Context.zero, none) ∧
      ∃ ext, (LimitByRequest (New noGlobals none) bareRequest []).2 = [] ++ ext ∧
        ∀ ev ∈ ext, ev.isGet = false :=
  skipped_request_zero_decision (New noGlobals none) bareRequest [] (by decide) (Or.inl rfl)

/-! ## The keys built by `BuildKeys` -/

/-- With an additional-context extractor configured, `BuildKeys` returns, and
its two keys are these. -/
theorem BuildKeys_eq (lmt : Limiter) (r : Request) (t : Trace) (g : FuncFetchParamFromContext)
    (hg : lmt.additionalContextFunc = some g) :
    BuildKeys lmt r t =
      (some ⟨if (userIdToLimit lmt r t).1 = "" then [RemoteIP lmt.GetIPLookups 100 r] else [],
          if lmt.GetIgnoreURL then
            [RemoteIP lmt.GetIPLookups 100 r, lmt.GetMethods r, (userIdToLimit lmt r t).1,
              (g (userIdToLimit lmt r t).2 r lmt.additionalContextParams).1]
          else
            [RemoteIP lmt.GetIPLookups 100 r, r.Path, lmt.GetMethods r, (userIdToLimit lmt r t).1,
              (g (userIdToLimit lmt r t).2 r lmt.additionalContextParams).1]⟩,
        (userIdToLimit lmt r t).2 ++
          [Event.additional lmt.additionalContextParams
            (g (userIdToLimit lmt r t).2 r lmt.additionalContextParams)]) := by
  unfold BuildKeys
  rcases hu : userIdToLimit lmt r t with ⟨userId, t1⟩
  have hadd : lmt.GetAdditionalContextParam r t1 =
      (some (g t1 r lmt.additionalContextParams),
        t1 ++ [Event.additional lmt.additionalContextParams
          (g t1 r lmt.additionalContextParams)]) := by
    simp [Limiter.GetAdditionalContextParam, hg]
  simp only [hadd, length_eq_zero_iff_empty]
  by_cases hurl : lmt.GetIgnoreURL = true <;> simp [hurl]

/-- Without an additional-context extractor `BuildKeys` does not return. -/
theorem BuildKeys_none (lmt : Limiter) (r : Request) (t : Trace)
    (hg : lmt.additionalContextFunc = none) :
    (BuildKeys lmt r t).1 = none := by
  unfold BuildKeys
  rcases hu : userIdToLimit lmt r t with ⟨userId, t1⟩
  simp [Limiter.GetAdditionalContextParam, hg]

/-- The identity kept by `BuildKeys` is empty exactly for anonymous requests. -/
theorem userIdToLimit_eq_empty_iff (lmt : Limiter) (r : Request) (t : Trace) :
    (userIdToLimit lmt r t).1 = "" ↔
      (lmt.GetIncludeUserId = false ∨ (lmt.GetUserIdFromContext r t).1.2 ≠ none ∨
        (lmt.GetUserIdFromContext r t).1.1 = "") := by
  unfold userIdToLimit
  by_cases hi : lmt.GetIncludeUserId = true
  · rcases hres : lmt.GetUserIdFromContext r t with ⟨⟨u, _ | e⟩, t1⟩ <;> simp [hi]
  · simp [hi]

/-- The Global key of `BuildKeys` when the additional-context extractor is
configured: the resolved address alone for an anonymous request, nothing for an
identified one. -/
theorem BuildKeys_global_key (lmt : Limiter) (r : Request) (t : Trace)
    (hg : lmt.additionalContextFunc.isSome = true) :
    ∃ keys t1, BuildKeys lmt r t = (some keys, t1) ∧
      ((lmt.GetIncludeUserId = false ∨ (lmt.GetUserIdFromContext r t).1.2 ≠ none ∨
          (lmt.GetUserIdFromContext r t).1.1 = "") →
        keys.Global = [RemoteIP lmt.GetIPLookups 100 r]) ∧
      ((lmt.GetIncludeUserId = true ∧ (lmt.GetUserIdFromContext r t).1.2 = none ∧
          (lmt.GetUserIdFromContext r t).1.1 ≠ "") →
        keys.Global = []) := by
  obtain ⟨g, hg⟩ := Option.isSome_iff_exists.mp hg
  refine ⟨_, _, BuildKeys_eq lmt r t g hg, ?_, ?_⟩
  · intro h
    simp [(userIdToLimit_eq_empty_iff lmt r t).mpr h]
  · intro h
    have hne : ¬ (userIdToLimit lmt r t).1 = "" := by
      rw [userIdToLimit_eq_empty_iff]
      rcases h with ⟨h1, h2, h3⟩
      simp [h1, h2, h3]
    simp [hne]

/-- C2 (failing input). On the limiter that `New` builds before `Init` has run
(no additional-context extractor) and an anonymous `GET /` from `203.0.113.7`,
`BuildKeys` calls the nil extractor and panics: it returns no Global key, where
the claim promises the key `["203.0.113.7"]`. -/
theorem BuildKeys_panics_without_context_extractor :
    BuildKeys (New noGlobals none) sampleRequest [] = (none, []) := by
  decide

/-- C3 (counterexample). With `ignoreURL` set the Request key of an anonymous
`GET /` has four components, not five: the path is left out. -/
theorem request_key_four_components_when_url_ignored :
    (BuildKeys ((New ⟨none, none, some sampleContext⟩ none).SetIgnoreURL true)
        sampleRequest []).1 =
      some ⟨["203.0.113.7"], ["203.0.113.7", "GET", "", "ctx"]⟩ ∧
    ["203.0.113.7", "GET", "", "ctx"].length ≠ 5 := by
  decide

/-- C3 (amended). For every limiter whose additional-context extractor is
configured and every request, `BuildKeys` returns and its Request key has
exactly 5 components when `ignoreURL` is false and exactly 4 when it is true. -/
theorem request_key_length (lmt : Limiter) (r : Request) (t : Trace)
    (hg : lmt.additionalContextFunc.isSome = true) :
    ∃ keys t1, BuildKeys lmt r t = (some keys, t1) ∧
      keys.Request.length = if lmt.GetIgnoreURL then 4 else 5 := by
  obtain ⟨g, hg⟩ := Option.isSome_iff_exists.mp hg
  refine ⟨_, _, BuildKeys_eq lmt r t g hg, ?_⟩
  by_cases hurl : lmt.GetIgnoreURL = true <;> simp [hurl]

/-- C3 (witness): the limiter built by `New` with a context extractor. -/
theorem request_key_length_witness :
    ∃ keys t1, BuildKeys (New ⟨none, none, some sampleContext⟩ none) sampleRequest [] =
        (some keys, t1) ∧
      keys.Request.length =
        if (New ⟨none, none, some sampleContext⟩ none).GetIgnoreURL then 4 else 5 :=
  request_key_length (New ⟨none, none, some sampleContext⟩ none) sampleRequest [] rfl

/-- C4. When both extractors succeed (`identity` is the value of the identity
extractor when `includeUserId` is set and the empty string otherwise, `extra`
is the value of the additional-context extractor), the Request key is
`[address, path, GetMethods r, identity, extra]` when `ignoreURL` is false, and
the same list without the path when it is true. -/
theorem request_key_components (lmt : Limiter) (r : Request) (t : Trace)
    (g : FuncFetchParamFromContext) (identity extra : String)
    (hg : lmt.additionalContextFunc = some g)
    (hid : if lmt.GetIncludeUserId then (lmt.GetUserIdFromContext r t).1 = (identity, none)
      else identity = "")
    (hextra : g (if lmt.GetIncludeUserId then (lmt.GetUserIdFromContext r t).2 else t) r
      lmt.additionalContextParams = (extra, none)) :
    ∃ keys t1, BuildKeys lmt r t = (some keys, t1) ∧
      keys.Request =
        if lmt.GetIgnoreURL then
          [RemoteIP lmt.GetIPLookups 100 r, lmt.GetMethods r, identity, extra]
        else [RemoteIP lmt.GetIPLookups 100 r, r.Path, lmt.GetMethods r, identity, extra] := by
  have hu : userIdToLimit lmt r t =
      (identity, if lmt.GetIncludeUserId then (lmt.GetUserIdFromContext r t).2 else t) := by
    unfold userIdToLimit
    by_cases hi : lmt.GetIncludeUserId = true
    · simp only [hi, if_true] at hid ⊢
      rcases hres : lmt.GetUserIdFromContext r t with ⟨⟨u, _ | e⟩, t1⟩
      · rw [hres] at hid
        simp at hid
        simp [hid]
      · rw [hres] at hid
        simp at hid
    · simp only [hi] at hid ⊢
      simp at hid
      simp [hid]
  refine ⟨_, _, BuildKeys_eq lmt r t g hg, ?_⟩
  simp only [hu, hextra]

/-- C4 (witness): an identified `GET /` from `203.0.113.7`. -/
theorem request_key_components_witness :
    ∃ keys t1, BuildKeys (New ⟨none, some aliceUser, some sampleContext⟩ none) sampleRequest [] =
        (some keys, t1) ∧
      keys.Request = ["203.0.113.7", "/", "GET", "alice", "ctx"] :=
  request_key_components (New ⟨none, some aliceUser, some sampleContext⟩ none) sampleRequest []
    sampleContext "alice" "ctx" rfl rfl rfl

/-! ## The three checks, one step each -/

/-- The events appended to `t` by a run that ended with `t ++ ext` are `ext`. -/
theorem newEvents_append (t ext : Trace) : newEvents t (t ++ ext) = ext := by
  simp [newEvents]

/-- Joining two elements puts the separator between them. -/
theorem Join_pair (a b sep : String) : Join [a, b] sep = a ++ sep ++ b := by
  simp [Join]

/-- The empty list records no failed call. -/
theorem NoFail.empty : NoFail [] := by
  intro ev hev
  cases hev

/-- Two lists without failed calls concatenate to one. -/
theorem NoFail.append {a b : List Event} (ha : NoFail a) (hb : NoFail b) : NoFail (a ++ b) := by
  intro ev hev
  rcases List.mem_append.mp hev with h | h
  · exact ha ev h
  · exact hb ev h

/-- A step that appends nothing. -/
theorem Phase.nil (P : Event → Bool) (t : Trace) (res : Option Result) : Phase P t (res, t) :=
  ⟨[], by simp, by simp, Or.inl NoFail.empty⟩

/-- A step only appends events. -/
theorem Phase.appends {P : Event → Bool} {t : Trace} {out : Option Result × Trace}
    (h : Phase P t out) : Appends P t out.2 := by
  obtain ⟨ext, h1, h2, _⟩ := h
  exact ⟨ext, h1, h2⟩

/-- A step stays a step under a weaker predicate on its events. -/
theorem Phase.mono {P Q : Event → Bool} {t : Trace} {out : Option Result × Trace}
    (hPQ : ∀ ev, P ev = true → Q ev = true) (h : Phase P t out) : Phase Q t out := by
  obtain ⟨ext, h1, h2, h3⟩ := h
  exact ⟨ext, h1, fun ev hev => hPQ ev (h2 ev hev), h3⟩

/-- A step that ended without error recorded no failed engine call. -/
theorem Phase.noFail {P : Event → Bool} {t t1 : Trace} {c : Context}
    (h : Phase P t (some (c, none), t1)) :
    ∃ ext, t1 = t ++ ext ∧ (∀ ev ∈ ext, P ev = true) ∧ NoFail ext := by
  obtain ⟨ext, h1, h2, h3⟩ := h
  refine ⟨ext, h1, h2, ?_⟩
  rcases h3 with h3 | ⟨init, tier, key, rate, c1, e, _, _, hres⟩
  · exact h3
  · simp at hres

/-- Two steps in sequence, the first of which ended without error. -/
theorem Phase.seq {P : Event → Bool} {t t1 : Trace} {c : Context} {out : Option Result × Trace}
    (h1 : Phase P t (some (c, none), t1)) (h2 : Phase P t1 out) : Phase P t out := by
  obtain ⟨e1, rfl, p1, n1⟩ := h1.noFail
  obtain ⟨e2, h2e, p2, s2⟩ := h2
  refine ⟨e1 ++ e2, by simp [h2e], ?_, ?_⟩
  · intro ev hev
    rcases List.mem_append.mp hev with h | h
    · exact p1 ev h
    · exact p2 ev h
  · rcases s2 with s2 | ⟨init, tier, key, rate, c1, e, hext, hinit, hres⟩
    · exact Or.inl (n1.append s2)
    · refine Or.inr ⟨e1 ++ init, tier, key, rate, c1, e, by simp [hext], n1.append hinit, hres⟩

/-- A key-building step followed by an evaluation step. -/
theorem Phase.afterExtract {P : Event → Bool} {t t1 : Trace} {out : Option Result × Trace}
    (h1 : Appends Event.isExtract t t1) (h2 : Phase P t1 out) :
    Phase (fun ev => P ev || ev.isExtract) t out := by
  obtain ⟨e1, rfl, p1⟩ := h1
  have n1 : NoFail e1 := by
    intro ev hev
    have := p1 ev hev
    cases ev <;> simp_all [Event.isExtract, Event.isGet, Event.failed]
  obtain ⟨e2, h2e, p2, s2⟩ := h2
  refine ⟨e1 ++ e2, by simp [h2e], ?_, ?_⟩
  · intro ev hev
    rcases List.mem_append.mp hev with h | h
    · simp [p1 ev h]
    · simp [p2 ev h]
  · rcases s2 with s2 | ⟨init, tier, key, rate, c1, e, hext, hinit, hres⟩
    · exact Or.inl (n1.append s2)
    · refine Or.inr ⟨e1 ++ init, tier, key, rate, c1, e, by simp [hext], n1.append hinit, hres⟩

/-- One engine call through a handle, with the error handling shared by the
three checks. -/
theorem check_phase (P : Event → Bool) (l : LibLimiter) (tier : Tier) (key : String) (t : Trace)
    (hP : ∀ res, P (Event.get tier key l.Rate res) = true) :
    Phase P t
      (match l.Get tier key t with
        | (none, t1) => (none, t1)
        | (some (_, some err), t1) => (some (Context.zero, some err), t1)
        | (some (lctx, none), t1) => (some (lctx, none), t1)) := by
  unfold LibLimiter.Get
  cases hs : l.Store with
  | none => exact Phase.nil _ _ _
  | some s =>
    rcases hres : s t key l.Rate with ⟨c, _ | e⟩
    · refine ⟨[Event.get tier key l.Rate (c, none)], by simp [hres], ?_, Or.inl ?_⟩
      · intro ev hev
        simp at hev
        subst hev
        exact hP _
      · intro ev hev
        simp at hev
        subst hev
        rfl
    · refine ⟨[Event.get tier key l.Rate (c, some e)], by simp [hres], ?_, Or.inr ?_⟩
      · intro ev hev
        simp at hev
        subst hev
        exact hP _
      · exact ⟨[], tier, key, l.Rate, c, e, by simp, NoFail.empty, by simp [hres]⟩

/-- The request-tier check appends at most request-tier engine calls. -/
theorem LimitReached_phase (l : Limiter) (key : String) (t : Trace) :
    Phase Event.isRequestGet t (l.LimitReached key t) := by
  unfold Limiter.LimitReached
  by_cases h : l.IsInitialised = true
  · simpa [h] using check_phase Event.isRequestGet l.limiter Tier.request key t (fun _ => rfl)
  · simpa [h] using Phase.nil _ t _

/-- The global-tier check appends at most global-tier engine calls. -/
theorem GlobalLimitReached_phase (l : Limiter) (key : String) (t : Trace) :
    Phase Event.isGlobalGet t (l.GlobalLimitReached key t) := by
  unfold Limiter.GlobalLimitReached
  by_cases h : l.IsInitialised = true
  · simpa [h] using check_phase Event.isGlobalGet l.globalLimiter Tier.global key t (fun _ => rfl)
  · simpa [h] using Phase.nil _ t _

/-- The check of one pluggable tier appends at most pluggable engine calls. -/
theorem pluggableLimiterValidator_phase (p : Pluggable) (i : Nat) (key : String) (t : Trace) :
    Phase Event.isPluggableGet t (pluggableLimiterValidator p i key t) := by
  unfold pluggableLimiterValidator
  by_cases h1 : p.E.Suffix = ""
  · simpa [h1] using Phase.nil _ t _
  · by_cases h2 : p.L.Store.isNone = true
    · simpa [h1, h2] using Phase.nil _ t _
    · simpa [h1, h2] using check_phase Event.isPluggableGet p.L (Tier.pluggable i)
        (Join [key, p.E.Suffix] KeyJoinIdentifier) t (fun _ => rfl)

/-- The loop over the pluggable tiers appends only pluggable engine calls. -/
theorem pluggableLimitReachedLoop_phase (key : String) (ps : List Pluggable) :
    ∀ (i : Nat) (c : Context) (t : Trace),
      Phase Event.isPluggableGet t (pluggableLimitReachedLoop key ps i (c, none) t) := by
  induction ps with
  | nil =>
    intro i c t
    exact Phase.nil _ _ _
  | cons p rest ih =>
    intro i c t
    have hv := pluggableLimiterValidator_phase p i key t
    unfold pluggableLimitReachedLoop
    rcases hres : pluggableLimiterValidator p i key t with ⟨_ | ⟨lctx, _ | err⟩, t1⟩
    · simpa [hres] using hv
    · rw [hres] at hv
      by_cases hr : lctx.LimitReached = true
      · simpa [hr] using hv
      · simpa [hr] using hv.seq (ih (i + 1) lctx t1)
    · simpa [hres] using hv

/-- The pluggable chain appends only pluggable engine calls. -/
theorem PluggableLimitReached_phase (l : Limiter) (key : String) (t : Trace) :
    Phase Event.isPluggableGet t (l.PluggableLimitReached key t) := by
  unfold Limiter.PluggableLimitReached
  by_cases h : l.IsPluggableLimiterValid = true
  · cases hp : l.pluggableLimiter with
    | none => simpa [h] using Phase.nil _ t _
    | some pl => simpa [h] using pluggableLimitReachedLoop_phase key pl 0 Context.zero t
  · simpa [h] using Phase.nil _ t _

/-! ## The paths of `LimitByRequest` -/

/-- The Global key is valid exactly when it is not empty. -/
theorem IsGlobalValid_iff (keys : LimiterKeys) : keys.IsGlobalValid = true ↔ keys.Global ≠ [] := by
  unfold LimiterKeys.IsGlobalValid
  cases keys.Global <;> simp

/-- A skipped request returns the zero decision at once. -/
theorem LimitByRequest_skip (lmt : Limiter) (r : Request) (t0 t1 : Trace)
    (hskip : ShouldSkipLimiter lmt r t0 = (true, t1)) :
    LimitByRequest lmt r t0 = (some (Context.zero, none), t1) := by
  unfold LimitByRequest
  rw [hskip]

/-- When `BuildKeys` panics so does `LimitByRequest`. -/
theorem LimitByRequest_nokeys (lmt : Limiter) (r : Request) (t0 t1 t2 : Trace)
    (hskip : ShouldSkipLimiter lmt r t0 = (false, t1))
    (hkeys : BuildKeys lmt r t1 = (none, t2)) :
    LimitByRequest lmt r t0 = (none, t2) := by
  unfold LimitByRequest
  rw [hskip]
  simp only [hkeys]

/-- An empty Global key leads straight to the request tier. -/
theorem LimitByRequest_identified (lmt : Limiter) (r : Request) (t0 t1 t2 : Trace)
    (keys : LimiterKeys)
    (hskip : ShouldSkipLimiter lmt r t0 = (false, t1))
    (hkeys : BuildKeys lmt r t1 = (some keys, t2))
    (hid : keys.Global = []) :
    LimitByRequest lmt r t0 = Limits keys.Request lmt t2 := by
  have hv : keys.IsGlobalValid = false := by
    simp [LimiterKeys.IsGlobalValid, hid]
  unfold LimitByRequest
  rw [hskip]
  simp only [hkeys, hv]
  simp

/-- A pluggable chain that does not pass ends the evaluation. -/
theorem LimitByRequest_pluggable_stop (lmt : Limiter) (r : Request) (t0 t1 t2 t3 : Trace)
    (keys : LimiterKeys) (res : Option Result)
    (hskip : ShouldSkipLimiter lmt r t0 = (false, t1))
    (hkeys : BuildKeys lmt r t1 = (some keys, t2))
    (hanon : keys.Global ≠ [])
    (hplug : PluggableLimits keys.Global lmt t2 = (res, t3))
    (hstop : ∀ c, res = some (c, none) → c.Reached = true) :
    LimitByRequest lmt r t0 = (res, t3) := by
  have hv : keys.IsGlobalValid = true := (IsGlobalValid_iff keys).mpr hanon
  unfold LimitByRequest
  rw [hskip]
  simp only [hkeys, hv, hplug, if_true]
  rcases res with _ | ⟨c, _ | e⟩
  · rfl
  · have := hstop c rfl
    simp [Context.LimitReached, this]
  · simp

/-- A global tier that does not pass ends the evaluation. -/
theorem LimitByRequest_global_stop (lmt : Limiter) (r : Request) (t0 t1 t2 t3 t4 : Trace)
    (keys : LimiterKeys) (c : Context) (res : Option Result)
    (hskip : ShouldSkipLimiter lmt r t0 = (false, t1))
    (hkeys : BuildKeys lmt r t1 = (some keys, t2))
    (hanon : keys.Global ≠ [])
    (hplug : PluggableLimits keys.Global lmt t2 = (some (c, none), t3))
    (hc : c.Reached = false)
    (hglob : GlobalLimits keys.Global lmt t3 = (res, t4))
    (hstop : ∀ g, res = some (g, none) → g.Reached = true) :
    LimitByRequest lmt r t0 = (res, t4) := by
  have hv : keys.IsGlobalValid = true := (IsGlobalValid_iff keys).mpr hanon
  unfold LimitByRequest
  rw [hskip]
  simp only [hkeys, hv, hplug, hglob, if_true]
  rcases res with _ | ⟨g, _ | e⟩
  · simp [Context.LimitReached, hc]
  · have := hstop g rfl
    simp [Context.LimitReached, this, hc]
  · simp [Context.LimitReached, hc]

/-- When both earlier tiers pass the request tier decides. -/
theorem LimitByRequest_request (lmt : Limiter) (r : Request) (t0 t1 t2 t3 t4 : Trace)
    (keys : LimiterKeys) (c g : Context)
    (hskip : ShouldSkipLimiter lmt r t0 = (false, t1))
    (hkeys : BuildKeys lmt r t1 = (some keys, t2))
    (hanon : keys.Global ≠ [])
    (hplug : PluggableLimits keys.Global lmt t2 = (some (c, none), t3))
    (hc : c.Reached = false)
    (hglob : GlobalLimits keys.Global lmt t3 = (some (g, none), t4))
    (hg : g.Reached = false) :
    LimitByRequest lmt r t0 = Limits keys.Request lmt t4 := by
  have hv : keys.IsGlobalValid = true := (IsGlobalValid_iff keys).mpr hanon
  unfold LimitByRequest
  rw [hskip]
  simp only [hkeys, hv, hplug, hglob, if_true]
  simp [Context.LimitReached, hc, hg]

/-- The request-tier check in closed form. -/
theorem LimitReached_eq (l : Limiter) (key : String) (t : Trace) :
    l.LimitReached key t =
      match l.limiter.Store with
      | none => (some (Context.zero, none), t)
      | some s =>
        (some (surfaced (s t key l.limiter.Rate)),
          t ++ [Event.get Tier.request key l.limiter.Rate (s t key l.limiter.Rate)]) := by
  unfold Limiter.LimitReached Limiter.IsInitialised LibLimiter.Get
  cases hs : l.limiter.Store with
  | none => simp
  | some s =>
    rcases hres : s t key l.limiter.Rate with ⟨c, _ | e⟩ <;> simp [hres, surfaced]

/-! ## The pluggable chain -/

/-- The check of one tier appends exactly the event of that tier. -/
theorem pluggableLimiterValidator_trace (p : Pluggable) (i : Nat) (key : String) (t : Trace) :
    (pluggableLimiterValidator p i key t).2 = t ++ pluggableEvent p i key t := by
  unfold pluggableLimiterValidator pluggableEvent LibLimiter.Get
  by_cases h1 : p.E.Suffix = ""
  · simp [h1]
  · cases hs : p.L.Store with
    | none => simp [h1]
    | some s =>
      rcases hres : s t (key ++ "|" ++ p.E.Suffix) p.L.Rate with ⟨c, _ | e⟩ <;>
        simp [h1, hres, Join_pair, KeyJoinIdentifier]

/-- A tier whose check passed hands back a decision that is not `Reached`. -/
theorem pluggableLimiterValidator_passed (p : Pluggable) (i : Nat) (key : String) (t : Trace)
    (h : ∀ ev ∈ pluggableEvent p i key t, ev.passed = true) :
    ∃ c, pluggableLimiterValidator p i key t = (some (c, none), t ++ pluggableEvent p i key t) ∧
      c.Reached = false := by
  unfold pluggableLimiterValidator pluggableEvent LibLimiter.Get at *
  by_cases h1 : p.E.Suffix = ""
  · exact ⟨Context.zero, by simp [h1], rfl⟩
  · cases hs : p.L.Store with
    | none => exact ⟨Context.zero, by simp [h1], rfl⟩
    | some s =>
      simp only [h1, hs, if_false] at h
      rcases hres : s t (key ++ "|" ++ p.E.Suffix) p.L.Rate with ⟨c, _ | e⟩
      · have hc := h _ (List.mem_singleton.mpr rfl)
        rw [hres] at hc
        refine ⟨c, by simp [h1, hres, Join_pair, KeyJoinIdentifier], ?_⟩
        simpa [Event.passed] using hc
      · have hc := h _ (List.mem_singleton.mpr rfl)
        rw [hres] at hc
        simp [Event.passed] at hc

/-- Tiers that all pass are walked through: the loop continues with the tiers
behind them at the history their checks left. -/
theorem pluggableLimitReachedLoop_append (key : String) (rest : List Pluggable)
    (pre : List Pluggable) :
    ∀ (i : Nat) (c : Context) (t : Trace), c.Reached = false →
      (∀ ev ∈ chainEvents key pre i t, ev.passed = true) →
      ∃ c1, c1.Reached = false ∧
        pluggableLimitReachedLoop key (pre ++ rest) i (c, none) t =
          pluggableLimitReachedLoop key rest (i + pre.length) (c1, none)
            (t ++ chainEvents key pre i t) := by
  induction pre with
  | nil =>
    intro i c t hc _
    exact ⟨c, hc, by simp [chainEvents]⟩
  | cons p ps ih =>
    intro i c t _ h
    have hp : ∀ ev ∈ pluggableEvent p i key t, ev.passed = true := by
      intro ev hev
      exact h ev (by simp [chainEvents, hev])
    obtain ⟨c0, hv, hc0⟩ := pluggableLimiterValidator_passed p i key t hp
    have hps : ∀ ev ∈ chainEvents key ps (i + 1) (t ++ pluggableEvent p i key t),
        ev.passed = true := by
      intro ev hev
      exact h ev (by simp [chainEvents, hev])
    obtain ⟨c1, hc1, hloop⟩ := ih (i + 1) c0 (t ++ pluggableEvent p i key t) hc0 hps
    refine ⟨c1, hc1, ?_⟩
    have : i + (p :: ps).length = i + 1 + ps.length := by simp; omega
    rw [this]
    simp only [List.cons_append, pluggableLimitReachedLoop, hv, Context.LimitReached, hc0]
    simpa [chainEvents, List.append_assoc] using hloop

/-- A valid tier whose check reports `Reached` ends the loop with its
decision. -/
theorem pluggableLimitReachedLoop_reached (key : String) (p : Pluggable) (post : List Pluggable)
    (i : Nat) (acc : Result) (t : Trace) (s : Store) (c : Context)
    (hsuffix : p.E.Suffix ≠ "") (hstore : p.L.Store = some s)
    (hres : s t (key ++ "|" ++ p.E.Suffix) p.L.Rate = (c, none)) (hc : c.Reached = true) :
    pluggableLimitReachedLoop key (p :: post) i acc t =
      (some (c, none),
        t ++ [Event.get (Tier.pluggable i) (key ++ "|" ++ p.E.Suffix) p.L.Rate (c, none)]) := by
  have hv : pluggableLimiterValidator p i key t =
      (some (c, none),
        t ++ [Event.get (Tier.pluggable i) (key ++ "|" ++ p.E.Suffix) p.L.Rate (c, none)]) := by
    unfold pluggableLimiterValidator LibLimiter.Get
    simp [hsuffix, hstore, Join_pair, KeyJoinIdentifier, hres]
  simp [pluggableLimitReachedLoop, hv, Context.LimitReached, hc]

/-- The validity loop answers whether some tier is valid. -/
theorem isPluggableLimiterValidLoop_eq (ps : List Pluggable) :
    ∀ v, isPluggableLimiterValidLoop ps v = (v || ps.any Pluggable.valid) := by
  induction ps with
  | nil => intro v; simp [isPluggableLimiterValidLoop]
  | cons p rest ih =>
    intro v
    unfold isPluggableLimiterValidLoop
    by_cases h1 : p.L.Store.isNone = true
    · have : p.L.Store.isSome = false := by
        cases hs : p.L.Store <;> simp_all
      simp [h1, ih, Pluggable.valid, this]
    · have h1s : p.L.Store.isSome = true := by
        cases hs : p.L.Store <;> simp_all
      by_cases h2 : p.E.Suffix = ""
      · simp [h1, h2, ih, Pluggable.valid]
      · simp [h1, h2, ih, Pluggable.valid, h1s]

/-- The calls recorded by the chain are those of the valid tiers, in
registration order, each on `key|suffix` under the rate of its tier. -/
theorem chainEvents_calls (key : String) (ps : List Pluggable) :
    ∀ (i : Nat) (t : Trace),
      (chainEvents key ps i t).filterMap Event.call = pluggableCalls key ps i := by
  induction ps with
  | nil => intro i t; simp [chainEvents, pluggableCalls]
  | cons p rest ih =>
    intro i t
    simp only [chainEvents, pluggableCalls, List.filterMap_append, ih]
    unfold pluggableEvent Pluggable.valid
    by_cases h1 : p.E.Suffix = ""
    · simp [h1]
    · cases hs : p.L.Store with
      | none => simp [h1]
      | some s => simp [h1, Event.call]

/-- C5. On a non-skipped anonymous request (the Global key `keys.Global` is not
empty) with the tiers `pre ++ e :: post` registered by `SetPluggableLimiter`:
when every check of the tiers `pre`, made in registration order, passed, and the
check of the valid tier `e` on `Join(globalKey,"|") + "|" + suffix` reports
`Reached`, `LimitByRequest` returns that decision with a nil error, and its
history ends with that call: after the key building come only the calls of the
valid tiers of `pre`, in registration order on their keys `base|suffix`, then
the call of `e`; no later pluggable tier, nor the global or the request tier, is
called. -/
theorem pluggable_first_reached_stops (lmt : Limiter) (g : Globals)
    (pre post : List ExpirableOptions) (e : ExpirableOptions) (s : Store) (r : Request)
    (t0 t1 t2 : Trace) (keys : LimiterKeys) (c : Context)
    (hskip : ShouldSkipLimiter (lmt.SetPluggableLimiter g (pre ++ e :: post)) r t0 = (false, t1))
    (hkeys : BuildKeys (lmt.SetPluggableLimiter g (pre ++ e :: post)) r t1 = (some keys, t2))
    (hanon : keys.Global ≠ [])
    (hstore : g.redisStore = some s) (hsuffix : e.Suffix ≠ "")
    (hpre : ∀ ev ∈ chainEvents (Join keys.Global "|") (NewPluggableLimiter g.redisStore pre) 0 t2,
      ev.passed = true)
    (he : s (t2 ++ chainEvents (Join keys.Global "|") (NewPluggableLimiter g.redisStore pre) 0 t2)
      (Join keys.Global "|" ++ "|" ++ e.Suffix)
      ⟨e.DefaultExpirationTTL, e.ExpireJobInterval⟩ = (c, none))
    (hreached : c.Reached = true) :
    LimitByRequest (lmt.SetPluggableLimiter g (pre ++ e :: post)) r t0 =
        (some (c, none),
          t2 ++ chainEvents (Join keys.Global "|") (NewPluggableLimiter g.redisStore pre) 0 t2 ++
            [Event.get (Tier.pluggable pre.length) (Join keys.Global "|" ++ "|" ++ e.Suffix)
              ⟨e.DefaultExpirationTTL, e.ExpireJobInterval⟩ (c, none)]) ∧
      (chainEvents (Join keys.Global "|") (NewPluggableLimiter g.redisStore pre) 0 t2).filterMap
          Event.call =
        pluggableCalls (Join keys.Global "|") (NewPluggableLimiter g.redisStore pre) 0 := by
  refine ⟨?_, chainEvents_calls _ _ _ _⟩
  have hsplit : NewPluggableLimiter g.redisStore (pre ++ e :: post) =
      NewPluggableLimiter g.redisStore pre ++
        (⟨e, ⟨g.redisStore, ⟨e.DefaultExpirationTTL, e.ExpireJobInterval⟩⟩⟩ ::
          NewPluggableLimiter g.redisStore post) := by
    simp [NewPluggableLimiter]
  have hlen : (NewPluggableLimiter g.redisStore pre).length = pre.length := by
    simp [NewPluggableLimiter]
  have hvalid : (lmt.SetPluggableLimiter g (pre ++ e :: post)).IsPluggableLimiterValid = true := by
    simp only [Limiter.IsPluggableLimiterValid, Limiter.SetPluggableLimiter,
      isPluggableLimiterValidLoop_eq, hsplit, Bool.false_or, List.any_append, List.any_cons]
    simp [Pluggable.valid, hstore, hsuffix]
  obtain ⟨c1, _, happ⟩ := pluggableLimitReachedLoop_append (Join keys.Global "|")
    (⟨e, ⟨g.redisStore, ⟨e.DefaultExpirationTTL, e.ExpireJobInterval⟩⟩⟩ ::
      NewPluggableLimiter g.redisStore post)
    (NewPluggableLimiter g.redisStore pre) 0 Context.zero t2 rfl hpre
  have hrch := pluggableLimitReachedLoop_reached (Join keys.Global "|")
    ⟨e, ⟨g.redisStore, ⟨e.DefaultExpirationTTL, e.ExpireJobInterval⟩⟩⟩
    (NewPluggableLimiter g.redisStore post) (0 + (NewPluggableLimiter g.redisStore pre).length)
    (c1, none)
    (t2 ++ chainEvents (Join keys.Global "|") (NewPluggableLimiter g.redisStore pre) 0 t2)
    s c hsuffix hstore he hreached
  have hplug : PluggableLimits keys.Global (lmt.SetPluggableLimiter g (pre ++ e :: post)) t2 =
      (some (c, none),
        t2 ++ chainEvents (Join keys.Global "|") (NewPluggableLimiter g.redisStore pre) 0 t2 ++
          [Event.get (Tier.pluggable pre.length) (Join keys.Global "|" ++ "|" ++ e.Suffix)
            ⟨e.DefaultExpirationTTL, e.ExpireJobInterval⟩ (c, none)]) := by
    unfold PluggableLimits Limiter.PluggableLimitReached
    rw [hvalid]
    simp only [Limiter.SetPluggableLimiter, KeyJoinIdentifier, hsplit]
    simp only [Bool.not_true, Bool.false_eq_true, if_false]
    rw [happ, hrch, hlen]
    simp
  exact LimitByRequest_pluggable_stop _ r t0 t1 t2 _ keys _ hskip hkeys hanon hplug
    (by intro c2 h2; simp at h2; rw [← h2]; exact hreached)

/-- C5 (witness): tiers `a` (passes), an inert tier, `burst` (limit zero,
denied) and `later` (never called). -/
theorem pluggable_first_reached_stops_witness :
    LimitByRequest
        ((New ⟨some zeroLimitStore, none, some sampleContext⟩ none).SetPluggableLimiter
          ⟨some zeroLimitStore, none, some sampleContext⟩
          ([⟨1, 3, "a"⟩, ⟨1, 0, ""⟩] ++ ⟨1, 0, "burst"⟩ :: [⟨1, 0, "later"⟩]))
        sampleRequest [] =
      (some (⟨0, 0, 1, true⟩, none),
        [Event.additional [] ("ctx", none),
          Event.get (Tier.pluggable 0) "203.0.113.7|a" ⟨1, 3⟩ (⟨3, 0, 1, false⟩, none),
          Event.get (Tier.pluggable 2) "203.0.113.7|burst" ⟨1, 0⟩ (⟨0, 0, 1, true⟩, none)]) ∧
      (chainEvents "203.0.113.7"
          (NewPluggableLimiter (some zeroLimitStore) [⟨1, 3, "a"⟩, ⟨1, 0, ""⟩]) 0
          [Event.additional [] ("ctx", none)]).filterMap Event.call =
        [(Tier.pluggable 0, "203.0.113.7|a", (⟨1, 3⟩ : Rate))] :=
  pluggable_first_reached_stops
    (New ⟨some zeroLimitStore, none, some sampleContext⟩ none)
    ⟨some zeroLimitStore, none, some sampleContext⟩
    [⟨1, 3, "a"⟩, ⟨1, 0, ""⟩] [⟨1, 0, "later"⟩] ⟨1, 0, "burst"⟩ zeroLimitStore sampleRequest
    [] [] [Event.additional [] ("ctx", none)]
    ⟨["203.0.113.7"], ["203.0.113.7", "/", "GET", "", "ctx"]⟩ ⟨0, 0, 1, true⟩
    rfl rfl (by decide) rfl (by decide) (by decide) rfl rfl


/-! ## The whole evaluation -/

/-- Membership in the appended events of an extension. -/
theorem Appends.mem_newEvents {P : Event → Bool} {t t1 : Trace} (h : Appends P t t1) :
    ∀ ev ∈ newEvents t t1, P ev = true := by
  obtain ⟨ext, rfl, hp⟩ := h
  rw [newEvents_append]
  exact hp

/-- The Global key that `BuildKeys` returns. -/
theorem BuildKeys_global (lmt : Limiter) (r : Request) (t t2 : Trace) (keys : LimiterKeys)
    (h : BuildKeys lmt r t = (some keys, t2)) :
    keys.Global =
      if (userIdToLimit lmt r t).1 = "" then [RemoteIP lmt.GetIPLookups 100 r] else [] := by
  cases hg : lmt.additionalContextFunc with
  | none =>
    have := BuildKeys_none lmt r t hg
    rw [h] at this
    simp at this
  | some g =>
    rw [BuildKeys_eq lmt r t g hg] at h
    simp only [Prod.mk.injEq, Option.some.injEq] at h
    rw [← h.1]

/-- Every run of `LimitByRequest` is one step: it only appends events, and a
failed engine call ends it with the error of that call. -/
theorem LimitByRequest_phase (lmt : Limiter) (r : Request) (t0 : Trace) :
    Phase (fun ev => ev.isGet || ev.isExtract) t0 (LimitByRequest lmt r t0) := by
  have hreq : ∀ key t, Phase Event.isGet t (lmt.LimitReached key t) := fun key t =>
    (LimitReached_phase lmt key t).mono (by intro ev h; cases ev <;> simp_all [Event.isRequestGet, Event.isGet])
  have hglo : ∀ key t, Phase Event.isGet t (lmt.GlobalLimitReached key t) := fun key t =>
    (GlobalLimitReached_phase lmt key t).mono (by intro ev h; cases ev <;> simp_all [Event.isGlobalGet, Event.isGet])
  have hplu : ∀ key t, Phase Event.isGet t (lmt.PluggableLimitReached key t) := fun key t =>
    (PluggableLimitReached_phase lmt key t).mono (by intro ev h; cases ev <;> simp_all [Event.isPluggableGet, Event.isGet])
  have a1 := ShouldSkipLimiter_trace lmt r t0
  rcases hs : ShouldSkipLimiter lmt r t0 with ⟨b, t1⟩
  rw [hs] at a1
  cases b with
  | true =>
    rw [LimitByRequest_skip lmt r t0 t1 hs]
    exact Phase.afterExtract a1 (Phase.nil _ _ _)
  | false =>
    have a2 := BuildKeys_trace lmt r t1
    rcases hk : BuildKeys lmt r t1 with ⟨_ | keys, t2⟩
    · rw [hk] at a2
      rw [LimitByRequest_nokeys lmt r t0 t1 t2 hs hk]
      exact Phase.afterExtract (a1.trans a2) (Phase.nil _ _ _)
    · rw [hk] at a2
      by_cases hgl : keys.Global = []
      · rw [LimitByRequest_identified lmt r t0 t1 t2 keys hs hk hgl]
        exact Phase.afterExtract (a1.trans a2) (hreq _ _)
      · have hp := hplu (Join keys.Global KeyJoinIdentifier) t2
        rcases hpl : PluggableLimits keys.Global lmt t2 with ⟨res, t3⟩
        have hpl' : lmt.PluggableLimitReached (Join keys.Global KeyJoinIdentifier) t2 = (res, t3) := hpl
        rw [hpl'] at hp
        by_cases hstop : ∀ c, res = some (c, none) → c.Reached = true
        · rw [LimitByRequest_pluggable_stop lmt r t0 t1 t2 t3 keys res hs hk hgl hpl hstop]
          exact Phase.afterExtract (a1.trans a2) hp
        · push_neg at hstop
          obtain ⟨c, rfl, hc⟩ := hstop
          have hc : c.Reached = false := by simpa using hc
          have hg := hglo (Join keys.Global KeyJoinIdentifier) t3
          rcases hgo : GlobalLimits keys.Global lmt t3 with ⟨res2, t4⟩
          have hgo' : lmt.GlobalLimitReached (Join keys.Global KeyJoinIdentifier) t3 = (res2, t4) := hgo
          rw [hgo'] at hg
          by_cases hstop2 : ∀ g, res2 = some (g, none) → g.Reached = true
          · rw [LimitByRequest_global_stop lmt r t0 t1 t2 t3 t4 keys c res2 hs hk hgl hpl hc hgo hstop2]
            exact Phase.afterExtract (a1.trans a2) (hp.seq hg)
          · push_neg at hstop2
            obtain ⟨g, rfl, hg2⟩ := hstop2
            have hg2 : g.Reached = false := by simpa using hg2
            rw [LimitByRequest_request lmt r t0 t1 t2 t3 t4 keys c g hs hk hgl hpl hc hgo hg2]
            exact Phase.afterExtract (a1.trans a2) ((hp.seq hg).seq (hreq _ _))

/-- An element followed by more can only equal a list ending in `b` when it
lies before `b` or is `b` itself with nothing behind it. -/
theorem append_cons_eq_append_singleton {α : Type} (pre post init : List α) (a b : α)
    (h : pre ++ a :: post = init ++ [b]) : (post = [] ∧ a = b) ∨ a ∈ init := by
  rcases List.eq_nil_or_concat post with hp | ⟨post1, x, hp⟩
  · subst hp
    have := List.append_inj' h rfl
    simp at this
    exact Or.inl ⟨rfl, this.2⟩
  · subst hp
    have h2 : (pre ++ a :: post1) ++ [x] = init ++ [b] := by simpa using h
    have := List.append_inj' h2 rfl
    right
    rw [← this.1]
    simp

/-- C9. If an engine call made during `LimitByRequest` (in a pluggable tier,
the global tier or the request tier) returns the error `e`, then
`LimitByRequest` returns that same `e` together with the zero `Context`, and
that call is the last event of the run: nothing is called after it.  Hence the
first failing call is the only one. -/
theorem engine_error_surfaced_verbatim (lmt : Limiter) (r : Request) (t0 : Trace)
    (pre post : List Event) (tier : Tier) (key : String) (rate : Rate) (c : Context) (e : Error)
    (h : (LimitByRequest lmt r t0).2 = t0 ++ (pre ++ Event.get tier key rate (c, some e) :: post)) :
    (LimitByRequest lmt r t0).1 = some (Context.zero, some e) ∧ post = [] := by
  obtain ⟨ext, hext, _, hlast⟩ := LimitByRequest_phase lmt r t0
  have hx : ext = pre ++ Event.get tier key rate (c, some e) :: post := by
    rw [hext] at h
    exact List.append_cancel_left h
  rcases hlast with hnf | ⟨init, tier1, key1, rate1, c1, e1, hinit, hnf, hres⟩
  · have := hnf (Event.get tier key rate (c, some e)) (by simp [hx])
    simp [Event.failed] at this
  · rw [hx] at hinit
    rcases append_cons_eq_append_singleton _ _ _ _ _ hinit with ⟨hpost, hev⟩ | hmem
    · simp only [Event.get.injEq, Prod.mk.injEq, Option.some.injEq] at hev
      rw [hres, ← hev.2.2.2.2]
      exact ⟨rfl, hpost⟩
    · have := hnf _ hmem
      simp [Event.failed] at this

/-- C9 (witness): a failing store fails the global-tier call, the last event. -/
theorem engine_error_surfaced_verbatim_witness :
    (LimitByRequest (New ⟨some failStore, none, some sampleContext⟩ none) sampleRequest []).1 =
        some (Context.zero, some "store down") ∧
      ([] : List Event) = [] :=
  engine_error_surfaced_verbatim (New ⟨some failStore, none, some sampleContext⟩ none)
    sampleRequest [] [Event.additional [] ("ctx", none)] [] Tier.global "203.0.113.7"
    ⟨60000000000, 12⟩ ⟨12, 0, 1, true⟩ "store down" rfl


/-! ## Which tier is reached -/

/-- An extractor event is no engine call of any tier. -/
theorem Event.isExtract_tiers (ev : Event) (h : ev.isExtract = true) :
    ev.isGlobalGet = false ∧ ev.isPluggableGet = false ∧ ev.isRequestGet = false := by
  cases ev <;> simp_all [Event.isExtract, Event.isGet, Event.isGlobalGet, Event.isPluggableGet,
    Event.isRequestGet]

/-- A pluggable call is neither a global nor a request call. -/
theorem Event.isPluggableGet_tiers (ev : Event) (h : ev.isPluggableGet = true) :
    ev.isGlobalGet = false ∧ ev.isRequestGet = false := by
  rcases ev with _ | _ | ⟨tier, _, _, _⟩
  · exact ⟨rfl, rfl⟩
  · exact ⟨rfl, rfl⟩
  · cases tier <;> simp_all [Event.isGlobalGet, Event.isPluggableGet, Event.isRequestGet]

/-- A request call is neither a global nor a pluggable call. -/
theorem Event.isRequestGet_tiers (ev : Event) (h : ev.isRequestGet = true) :
    ev.isGlobalGet = false ∧ ev.isPluggableGet = false := by
  rcases ev with _ | _ | ⟨tier, _, _, _⟩
  · exact ⟨rfl, rfl⟩
  · exact ⟨rfl, rfl⟩
  · cases tier <;> simp_all [Event.isGlobalGet, Event.isPluggableGet, Event.isRequestGet]

/-- Either no global-tier call was made, or the request was not skipped, was
anonymous and its pluggable chain passed. -/
theorem LimitByRequest_global_or (lmt : Limiter) (r : Request) (t0 : Trace) :
    Appends (fun ev => !ev.isGlobalGet) t0 (LimitByRequest lmt r t0).2 ∨
      ∃ t1 keys t2 c t3,
        ShouldSkipLimiter lmt r t0 = (false, t1) ∧ BuildKeys lmt r t1 = (some keys, t2) ∧
        keys.Global ≠ [] ∧
        lmt.PluggableLimitReached (Join keys.Global "|") t2 = (some (c, none), t3) ∧
        c.Reached = false := by
  have hx : ∀ {t t1 : Trace}, Appends Event.isExtract t t1 →
      Appends (fun ev => !ev.isGlobalGet) t t1 := fun h =>
    h.weaken (by intro ev h; simp [(Event.isExtract_tiers ev h).1])
  have a1 := ShouldSkipLimiter_trace lmt r t0
  rcases hs : ShouldSkipLimiter lmt r t0 with ⟨b, t1⟩
  rw [hs] at a1
  cases b with
  | true =>
    left
    rw [LimitByRequest_skip lmt r t0 t1 hs]
    exact hx a1
  | false =>
    have a2 := BuildKeys_trace lmt r t1
    rcases hk : BuildKeys lmt r t1 with ⟨_ | keys, t2⟩
    · rw [hk] at a2
      left
      rw [LimitByRequest_nokeys lmt r t0 t1 t2 hs hk]
      exact hx (a1.trans a2)
    · rw [hk] at a2
      by_cases hgl : keys.Global = []
      · left
        rw [LimitByRequest_identified lmt r t0 t1 t2 keys hs hk hgl]
        exact (hx (a1.trans a2)).trans
          ((LimitReached_phase lmt _ t2).appends.weaken
            (by intro ev h; simp [(Event.isRequestGet_tiers ev h).1]))
      · have hp := (PluggableLimitReached_phase lmt (Join keys.Global "|") t2).appends
        rcases hpl : lmt.PluggableLimitReached (Join keys.Global "|") t2 with ⟨res, t3⟩
        rw [hpl] at hp
        by_cases hstop : ∀ c, res = some (c, none) → c.Reached = true
        · left
          rw [LimitByRequest_pluggable_stop lmt r t0 t1 t2 t3 keys res hs hk hgl hpl hstop]
          exact (hx (a1.trans a2)).trans
            (hp.weaken (by intro ev h; simp [(Event.isPluggableGet_tiers ev h).1]))
        · push_neg at hstop
          obtain ⟨c, rfl, hc⟩ := hstop
          right
          exact ⟨t1, keys, t2, c, t3, rfl, hk, hgl, hpl, by simpa using hc⟩

/-- An identified request only ever reaches the request tier. -/
theorem LimitByRequest_identified_trace (lmt : Limiter) (r : Request) (t0 : Trace)
    (identity : String) (hinc : lmt.GetIncludeUserId = true)
    (hid : (lmt.GetUserIdFromContext r (ShouldSkipLimiter lmt r t0).2).1 = (identity, none))
    (hne : identity ≠ "") :
    Appends (fun ev => !ev.isGlobalGet && !ev.isPluggableGet) t0 (LimitByRequest lmt r t0).2 := by
  have hx : ∀ {t t1 : Trace}, Appends Event.isExtract t t1 →
      Appends (fun ev => !ev.isGlobalGet && !ev.isPluggableGet) t t1 := fun h =>
    h.weaken (by intro ev h; simp [(Event.isExtract_tiers ev h).1, (Event.isExtract_tiers ev h).2.1])
  have a1 := ShouldSkipLimiter_trace lmt r t0
  rcases hs : ShouldSkipLimiter lmt r t0 with ⟨b, t1⟩
  rw [hs] at a1 hid
  cases b with
  | true =>
    rw [LimitByRequest_skip lmt r t0 t1 hs]
    exact hx a1
  | false =>
    have a2 := BuildKeys_trace lmt r t1
    rcases hk : BuildKeys lmt r t1 with ⟨_ | keys, t2⟩
    · rw [hk] at a2
      rw [LimitByRequest_nokeys lmt r t0 t1 t2 hs hk]
      exact hx (a1.trans a2)
    · rw [hk] at a2
      have hgl : keys.Global = [] := by
        rw [BuildKeys_global lmt r t1 t2 keys hk]
        have : ¬ (userIdToLimit lmt r t1).1 = "" := by
          rw [userIdToLimit_eq_empty_iff]
          simp only at hid
          simp [hinc, hid, hne]
        simp [this]
      rw [LimitByRequest_identified lmt r t0 t1 t2 keys hs hk hgl]
      exact (hx (a1.trans a2)).trans
        ((LimitReached_phase lmt _ t2).appends.weaken
          (by intro ev h; simp [(Event.isRequestGet_tiers ev h).1, (Event.isRequestGet_tiers ev h).2]))

/-- C6. A global-tier engine call appears among the events of a run only if
the request was not skipped, is anonymous (its Global key is not empty) and the
pluggable chain returned without error and without `Reached`; and on a request
whose identity, as `BuildKeys` resolves it, is not empty, no global-tier and no
pluggable-tier engine call is made. -/
theorem global_tier_only_for_anonymous (lmt : Limiter) (r : Request) (t0 : Trace) :
    (∀ ev ∈ newEvents t0 (LimitByRequest lmt r t0).2, ev.isGlobalGet = true →
      ∃ t1 keys t2 c t3,
        ShouldSkipLimiter lmt r t0 = (false, t1) ∧ BuildKeys lmt r t1 = (some keys, t2) ∧
        keys.Global ≠ [] ∧
        lmt.PluggableLimitReached (Join keys.Global "|") t2 = (some (c, none), t3) ∧
        c.Reached = false) ∧
    (∀ identity, lmt.GetIncludeUserId = true →
      (lmt.GetUserIdFromContext r (ShouldSkipLimiter lmt r t0).2).1 = (identity, none) →
      identity ≠ "" →
      ∀ ev ∈ newEvents t0 (LimitByRequest lmt r t0).2,
        ev.isGlobalGet = false ∧ ev.isPluggableGet = false) := by
  constructor
  · intro ev hev hglobal
    rcases LimitByRequest_global_or lmt r t0 with h | h
    · have := h.mem_newEvents ev hev
      simp [hglobal] at this
    · exact h
  · intro identity hinc hid hne ev hev
    have := (LimitByRequest_identified_trace lmt r t0 identity hinc hid hne).mem_newEvents ev hev
    simpa using this

/-- C6 (witness): an admitted anonymous request reaches the global tier,
an identified one does not. -/
theorem global_tier_only_for_anonymous_witness :
    (∃ t1 keys t2 c t3,
        ShouldSkipLimiter (New ⟨some allowStore, none, some sampleContext⟩ none) sampleRequest [] =
          (false, t1) ∧
        BuildKeys (New ⟨some allowStore, none, some sampleContext⟩ none) sampleRequest t1 =
          (some keys, t2) ∧
        keys.Global ≠ [] ∧
        (New ⟨some allowStore, none, some sampleContext⟩ none).PluggableLimitReached
          (Join keys.Global "|") t2 = (some (c, none), t3) ∧
        c.Reached = false) ∧
    (∀ ev ∈ newEvents []
        (LimitByRequest (New ⟨some allowStore, some aliceUser, some sampleContext⟩ none)
          sampleRequest []).2,
      ev.isGlobalGet = false ∧ ev.isPluggableGet = false) :=
  ⟨(global_tier_only_for_anonymous
      (New ⟨some allowStore, none, some sampleContext⟩ none) sampleRequest []).1
      (Event.get Tier.global "203.0.113.7" ⟨60000000000, 12⟩ (⟨12, 1, 1, false⟩, none))
      (by decide) rfl,
    (global_tier_only_for_anonymous
      (New ⟨some allowStore, some aliceUser, some sampleContext⟩ none) sampleRequest []).2
      "alice" rfl rfl (by decide)⟩

/-- C7. On a non-skipped anonymous request whose pluggable chain passes, when
the global-tier check on `Join(globalKey,"|")` returns an error or reports
`Reached`, `LimitByRequest` returns the result of that check, and no event of
the run is a request-tier engine call. -/
theorem global_tier_short_circuits (lmt : Limiter) (r : Request)
    (t0 t1 t2 t3 t4 : Trace) (keys : LimiterKeys) (c g : Context) (gerr : Option Error)
    (hskip : ShouldSkipLimiter lmt r t0 = (false, t1))
    (hkeys : BuildKeys lmt r t1 = (some keys, t2))
    (hanon : keys.Global ≠ [])
    (hplug : lmt.PluggableLimitReached (Join keys.Global "|") t2 = (some (c, none), t3))
    (hc : c.Reached = false)
    (hglob : lmt.GlobalLimitReached (Join keys.Global "|") t3 = (some (g, gerr), t4))
    (hstop : gerr ≠ none ∨ g.Reached = true) :
    LimitByRequest lmt r t0 = (some (g, gerr), t4) ∧
      ∀ ev ∈ newEvents t0 (LimitByRequest lmt r t0).2, ev.isRequestGet = false := by
  have hres : LimitByRequest lmt r t0 = (some (g, gerr), t4) := by
    refine LimitByRequest_global_stop lmt r t0 t1 t2 t3 t4 keys c _ hskip hkeys hanon hplug hc
      hglob ?_
    intro g1 h1
    simp only [Option.some.injEq, Prod.mk.injEq] at h1
    rcases hstop with h | h
    · exact absurd h1.2 h
    · rw [← h1.1]; exact h
  refine ⟨hres, ?_⟩
  rw [hres]
  have a1 := ShouldSkipLimiter_trace lmt r t0
  have a2 := BuildKeys_trace lmt r t1
  have a3 := (PluggableLimitReached_phase lmt (Join keys.Global "|") t2).appends
  have a4 := (GlobalLimitReached_phase lmt (Join keys.Global "|") t3).appends
  rw [hskip] at a1
  rw [hkeys] at a2
  rw [hplug] at a3
  rw [hglob] at a4
  have b1 : Appends (fun ev => !ev.isRequestGet) t0 t1 :=
    a1.weaken (by intro ev h; cases ev <;> simp_all [Event.isExtract, Event.isGet, Event.isRequestGet])
  have b2 : Appends (fun ev => !ev.isRequestGet) t1 t2 :=
    a2.weaken (by intro ev h; cases ev <;> simp_all [Event.isExtract, Event.isGet, Event.isRequestGet])
  have b3 : Appends (fun ev => !ev.isRequestGet) t2 t3 :=
    a3.weaken (by
      intro ev h
      rcases ev with _ | _ | ⟨tier, _, _, _⟩
      · rfl
      · rfl
      · cases tier <;> simp_all [Event.isPluggableGet, Event.isRequestGet])
  have b4 : Appends (fun ev => !ev.isRequestGet) t3 t4 :=
    a4.weaken (by
      intro ev h
      rcases ev with _ | _ | ⟨tier, _, _, _⟩
      · rfl
      · rfl
      · cases tier <;> simp_all [Event.isGlobalGet, Event.isRequestGet])
  intro ev hev
  simpa using (((b1.trans b2).trans b3).trans b4).mem_newEvents ev hev

/-- Where `BuildKeys` returned its keys: on a non-skipped request on which no
earlier tier short-circuits (the Global key is empty, or it is not and both the
pluggable chain and the global tier return no error and a decision that is not
`Reached`), `LimitByRequest` returns exactly the result of the request-tier
check `LimitReached` on `Join(requestKey,"|")`: with a store, the surfaced
answer of one engine call on that key under the rate held by the request handle
(the rate `New` saw, not the one the setters wrote later), appended to the
history as the single new event; without a store, the zero decision and no
call. -/
theorem request_tier_decides (lmt : Limiter) (r : Request)
    (t0 t1 t2 t3 : Trace) (keys : LimiterKeys)
    (hskip : ShouldSkipLimiter lmt r t0 = (false, t1))
    (hkeys : BuildKeys lmt r t1 = (some keys, t2))
    (hearlier : (keys.Global = [] ∧ t3 = t2) ∨
      (keys.Global ≠ [] ∧ ∃ c tp g,
        lmt.PluggableLimitReached (Join keys.Global "|") t2 = (some (c, none), tp) ∧
        c.Reached = false ∧
        lmt.GlobalLimitReached (Join keys.Global "|") tp = (some (g, none), t3) ∧
        g.Reached = false)) :
    LimitByRequest lmt r t0 = lmt.LimitReached (Join keys.Request "|") t3 ∧
      LimitByRequest lmt r t0 =
        match lmt.limiter.Store with
        | none => (some (Context.zero, none), t3)
        | some s =>
          (some (surfaced (s t3 (Join keys.Request "|") lmt.limiter.Rate)),
            t3 ++ [Event.get Tier.request (Join keys.Request "|") lmt.limiter.Rate
              (s t3 (Join keys.Request "|") lmt.limiter.Rate)]) := by
  have hres : LimitByRequest lmt r t0 = lmt.LimitReached (Join keys.Request "|") t3 := by
    rcases hearlier with ⟨hid, rfl⟩ | ⟨hanon, c, tp, g, hplug, hc, hglob, hg⟩
    · exact LimitByRequest_identified lmt r t0 t1 t3 keys hskip hkeys hid
    · exact LimitByRequest_request lmt r t0 t1 t2 tp t3 keys c g hskip hkeys hanon hplug hc hglob hg
  exact ⟨hres, hres.trans (LimitReached_eq lmt _ t3)⟩

/-- C7 (witness): a store that denies everything stops at the global tier. -/
theorem global_tier_short_circuits_witness :
    LimitByRequest (New ⟨some denyStore, none, some sampleContext⟩ none) sampleRequest [] =
        (some (⟨12, 0, 1, true⟩, none),
          [Event.additional [] ("ctx", none),
            Event.get Tier.global "203.0.113.7" ⟨60000000000, 12⟩ (⟨12, 0, 1, true⟩, none)]) ∧
      ∀ ev ∈ newEvents []
          (LimitByRequest (New ⟨some denyStore, none, some sampleContext⟩ none) sampleRequest []).2,
        ev.isRequestGet = false :=
  global_tier_short_circuits (New ⟨some denyStore, none, some sampleContext⟩ none)
    sampleRequest [] [] [Event.additional [] ("ctx", none)] [Event.additional [] ("ctx", none)]
    [Event.additional [] ("ctx", none),
      Event.get Tier.global "203.0.113.7" ⟨60000000000, 12⟩ (⟨12, 0, 1, true⟩, none)]
    ⟨["203.0.113.7"], ["203.0.113.7", "/", "GET", "", "ctx"]⟩ Context.zero ⟨12, 0, 1, true⟩ none
    rfl rfl (by decide) rfl rfl rfl (Or.inr rfl)

/-- An admitted anonymous request ends with one request-tier call. -/
theorem request_tier_decides_witness :
    LimitByRequest (New ⟨some allowStore, none, some sampleContext⟩ none) sampleRequest [] =
        (New ⟨some allowStore, none, some sampleContext⟩ none).LimitReached
          "203.0.113.7|/|GET||ctx"
          [Event.additional [] ("ctx", none),
            Event.get Tier.global "203.0.113.7" ⟨60000000000, 12⟩ (⟨12, 1, 1, false⟩, none)] ∧
      LimitByRequest (New ⟨some allowStore, none, some sampleContext⟩ none) sampleRequest [] =
        (some (⟨5, 1, 1, false⟩, none),
          [Event.additional [] ("ctx", none),
            Event.get Tier.global "203.0.113.7" ⟨60000000000, 12⟩ (⟨12, 1, 1, false⟩, none),
            Event.get Tier.request "203.0.113.7|/|GET||ctx" ⟨60000000000, 5⟩
              (⟨5, 1, 1, false⟩, none)]) :=
  request_tier_decides (New ⟨some allowStore, none, some sampleContext⟩ none)
    sampleRequest [] [] [Event.additional [] ("ctx", none)]
    [Event.additional [] ("ctx", none),
      Event.get Tier.global "203.0.113.7" ⟨60000000000, 12⟩ (⟨12, 1, 1, false⟩, none)]
    ⟨["203.0.113.7"], ["203.0.113.7", "/", "GET", "", "ctx"]⟩ rfl rfl
    (Or.inr ⟨by decide, Context.zero, [Event.additional [] ("ctx", none)], ⟨12, 1, 1, false⟩,
      rfl, rfl, rfl, rfl⟩)

/-- C8 (failing inputs). The request tier is not always what decides a
non-skipped request that no earlier tier stopped.  On an identified `GET /`
from `203.0.113.7` and a limiter with an identity extractor but no
additional-context extractor, `LimitByRequest` panics in `BuildKeys` after the
two identity lookups and never makes the request-tier check.  And after
`NewLimiter(2, 5 minutes).SetLimits(10)` the request rate reported by
`GetLimits` is 10, yet the request-tier call of an identified request is made
under the limit 2 that `New` handed to the engine handle. -/
theorem request_tier_unreached_or_stale_rate :
    LimitByRequest (New ⟨some allowStore, some aliceUser, none⟩ none) sampleRequest [] =
        (none, [Event.userId ("alice", none), Event.userId ("alice", none)]) ∧
    ((NewLimiter ⟨some allowStore, some aliceUser, some sampleContext⟩ 2
        300000000000).SetLimits 10).GetLimits = 10 ∧
    LimitByRequest
        ((NewLimiter ⟨some allowStore, some aliceUser, some sampleContext⟩ 2
          300000000000).SetLimits 10)
        sampleRequest [] =
      (some (⟨2, 1, 1, false⟩, none),
        [Event.userId ("alice", none), Event.userId ("alice", none),
          Event.additional [] ("ctx", none),
          Event.get Tier.request "203.0.113.7|/|GET|alice|ctx" ⟨300000000000, 2⟩
            (⟨2, 1, 1, false⟩, none)]) := by
  decide


/-! ## Disabled mode -/

/-- Without any store the pluggable chain is a no-op. -/
theorem PluggableLimitReached_disabled (lmt : Limiter) (key : String) (t : Trace)
    (hplug : ∀ pl, lmt.pluggableLimiter = some pl → ∀ p ∈ pl, p.L.Store = none) :
    lmt.PluggableLimitReached key t = (some (Context.zero, none), t) := by
  have hv : lmt.IsPluggableLimiterValid = false := by
    unfold Limiter.IsPluggableLimiterValid
    cases hp : lmt.pluggableLimiter with
    | none => rfl
    | some pl =>
      simp only [isPluggableLimiterValidLoop_eq, Bool.false_or]
      rw [List.any_eq_false]
      intro p hmem
      simp [Pluggable.valid, hplug pl hp p hmem]
  simp [Limiter.PluggableLimitReached, hv]

/-- Disabled mode with the additional-context extractor configured: when the
request handle and every pluggable tier have no store, `LimitByRequest` returns
the zero decision and a nil error, and makes no engine call. -/
theorem LimitByRequest_disabled (lmt : Limiter) (r : Request) (t0 : Trace)
    (hreq : lmt.limiter.Store = none)
    (hplug : ∀ pl, lmt.pluggableLimiter = some pl → ∀ p ∈ pl, p.L.Store = none)
    (hctx : lmt.additionalContextFunc.isSome = true) :
    (LimitByRequest lmt r t0).1 = some (Context.zero, none) ∧
      Appends Event.isExtract t0 (LimitByRequest lmt r t0).2 := by
  obtain ⟨g, hg⟩ := Option.isSome_iff_exists.mp hctx
  have hinit : lmt.IsInitialised = false := by simp [Limiter.IsInitialised, hreq]
  have hlim : ∀ key t, lmt.LimitReached key t = (some (Context.zero, none), t) := by
    intro key t; simp [Limiter.LimitReached, hinit]
  have hglo : ∀ key t, lmt.GlobalLimitReached key t = (some (Context.zero, none), t) := by
    intro key t; simp [Limiter.GlobalLimitReached, hinit]
  have a1 := ShouldSkipLimiter_trace lmt r t0
  rcases hs : ShouldSkipLimiter lmt r t0 with ⟨b, t1⟩
  rw [hs] at a1
  cases b with
  | true =>
    rw [LimitByRequest_skip lmt r t0 t1 hs]
    exact ⟨rfl, a1⟩
  | false =>
    have a2 := BuildKeys_trace lmt r t1
    have hk := BuildKeys_eq lmt r t1 g hg
    rw [hk] at a2
    by_cases hgl : (userIdToLimit lmt r t1).1 = ""
    · rw [LimitByRequest_request lmt r t0 t1 _ _ _ _ Context.zero Context.zero hs hk
        (by simp [hgl]) (PluggableLimitReached_disabled lmt _ _ hplug) rfl (hglo _ _) rfl]
      simp only [Limits, hlim]
      exact ⟨trivial, a1.trans a2⟩
    · rw [LimitByRequest_identified lmt r t0 t1 _ _ hs hk (by simp [hgl])]
      simp only [Limits, hlim]
      exact ⟨trivial, a1.trans a2⟩

/-- The fields `New` fills from the package-level variables. -/
theorem New_fields (g : Globals) (o : Option ExpirableOptions) :
    (New g o).limiter.Store = g.redisStore ∧ (New g o).globalLimiter.Store = g.redisStore ∧
      (New g o).additionalContextFunc = g.AdditionalContext ∧
      (New g o).pluggableLimiter = none := by
  refine ⟨rfl, rfl, rfl, ?_⟩
  rcases o with _ | ⟨ttl, max, sfx⟩
  · rfl
  · rcases ttl with (_ | n) | n <;> rcases max with (_ | m) | m <;> rfl

/-- Disabled mode of a limiter built by `New` (and, optionally, given pluggable
tiers) when the additional-context extractor is configured: zero decision, nil
error, no engine call. -/
theorem New_disabled (g : Globals) (o : Option ExpirableOptions) (eo : List ExpirableOptions)
    (r : Request) (t0 : Trace)
    (hstore : g.redisStore = none) (hctx : g.AdditionalContext.isSome = true) :
    ((LimitByRequest (New g o) r t0).1 = some (Context.zero, none) ∧
        Appends Event.isExtract t0 (LimitByRequest (New g o) r t0).2) ∧
      ((LimitByRequest ((New g o).SetPluggableLimiter g eo) r t0).1 =
          some (Context.zero, none) ∧
        Appends Event.isExtract t0
          (LimitByRequest ((New g o).SetPluggableLimiter g eo) r t0).2) := by
  constructor
  · refine LimitByRequest_disabled (New g o) r t0 ((New_fields g o).1.trans hstore) ?_
      ((congrArg Option.isSome (New_fields g o).2.2.1).trans hctx)
    intro pl h
    rw [(New_fields g o).2.2.2] at h
    cases h
  · refine LimitByRequest_disabled _ r t0 ((New_fields g o).1.trans hstore) ?_
      ((congrArg Option.isSome (New_fields g o).2.2.1).trans hctx)
    intro pl h p hp
    simp only [Limiter.SetPluggableLimiter, Option.some.injEq] at h
    subst h
    simp only [NewPluggableLimiter, List.mem_map] at hp
    obtain ⟨e, _, rfl⟩ := hp
    exact hstore

/-- C10 (failing input). In disabled mode proper, `New` called before `Init`
so that no store and no extractor is configured, an anonymous `GET /` from
`203.0.113.7` is not skipped, `BuildKeys` calls the nil additional-context
extractor, and `LimitByRequest` panics instead of returning the zero decision
with a nil error. -/
theorem disabled_mode_panics_without_context_extractor :
    LimitByRequest (New noGlobals none) sampleRequest [] = (none, []) := by
  decide

/-! ## Address resolution -/

/-- Splitting on commas always yields at least one piece. -/
theorem splitComma_length_pos (cs : List Char) : 0 < (splitComma cs).length := by
  induction cs with
  | nil => simp [splitComma]
  | cons c cs ih =>
    unfold splitComma
    by_cases h : c = ','
    · simp [h]
    · cases hs : splitComma cs with
      | nil => simp [h]
      | cons p ps => simp [h]

/-- The walk of `RemoteIP` agrees with `firstApplying` whenever the selected
entry of a non-empty forwarded chain is not empty. -/
theorem remoteIPLoop_eq (N : Nat) (r : Request)
    (hx : r.Header "X-Forwarded-For" ≠ "" → forwardedPart (r.Header "X-Forwarded-For") N ≠ "")
    (order : List String) :
    remoteIPLoop (r.Header "CF-Connecting-IP") (r.Header "X-Real-IP")
      (r.Header "X-Forwarded-For") N r order = firstApplying N r order := by
  induction order with
  | nil => rfl
  | cons l rest ih =>
    unfold remoteIPLoop firstApplying
    rw [ih]
    by_cases h1 : l = "CF-Connecting-IP"
    · subst h1
      by_cases hcf : r.Header "CF-Connecting-IP" = "" <;> simp [sourceValue, hcf]
    · by_cases h2 : l = "RemoteAddr"
      · subst h2
        simp [sourceValue]
      · by_cases h3 : l = "X-Forwarded-For"
        · subst h3
          by_cases hff : r.Header "X-Forwarded-For" = ""
          · simp [sourceValue, hff]
          · simp [sourceValue, hff, hx hff]
        · by_cases h4 : l = "X-Real-IP"
          · subst h4
            by_cases hre : r.Header "X-Real-IP" = "" <;> simp [sourceValue, hre]
          · simp [sourceValue, h1, h2, h3, h4]

/-- C12 (counterexample). In the default order `RemoteAddr` stands before
`X-Real-IP`; on a request with an empty `RemoteAddr` and `X-Real-IP:
198.51.100.4`, `RemoteIP` returns the empty `RemoteAddr` and never consults
`X-Real-IP`, although that source yields a non-empty value. -/
theorem RemoteIP_stops_at_empty_RemoteAddr :
    RemoteIP ["CF-Connecting-IP", "X-Forwarded-For", "RemoteAddr", "X-Real-IP"] 100
        realIPRequest = "" ∧
      firstNonEmpty 100 realIPRequest
        ["CF-Connecting-IP", "X-Forwarded-For", "RemoteAddr", "X-Real-IP"] = "198.51.100.4" := by
  decide

/-- C12 (amended). For every lookup order and every request whose
`X-Forwarded-For` header is empty or has a non-empty selected entry, `RemoteIP`
returns the value of the first source in the order that is `RemoteAddr` or
yields a non-empty value: `RemoteAddr` is never passed over, its value (the host
of `RemoteAddr`, or `RemoteAddr` itself when it cannot be split) is returned
even when empty and later sources are not consulted; a header source that
yields an empty value is passed over; the empty string is returned when no
source of the order is `RemoteAddr` or yields a non-empty value. -/
theorem RemoteIP_first_applying (order : List String) (N : Nat) (r : Request)
    (hx : r.Header "X-Forwarded-For" ≠ "" → forwardedPart (r.Header "X-Forwarded-For") N ≠ "") :
    RemoteIP order N r = firstApplying N r order :=
  remoteIPLoop_eq N r hx order

/-- C12 (witness): `X-Real-IP` is absent and passed over, the forwarded chain
answers. -/
theorem RemoteIP_first_applying_witness :
    RemoteIP ["X-Real-IP", "X-Forwarded-For", "RemoteAddr"] 1 forwardedRequest = "2.2.2.2" :=
  RemoteIP_first_applying ["X-Real-IP", "X-Forwarded-For", "RemoteAddr"] 1 forwardedRequest
    (by decide)

/-- The clamped index of the forwarded chain lies within the chain. -/
theorem forwarded_index_lt (count N : Nat) (h : 0 < count) :
    (max 0 ((count : Int) - 1 - (N : Int))).toNat < count := by
  omega

/-- The forwarded branch in closed form: the trimmed entry at the clamped
index. -/
theorem forwardedPart_eq (forwardedFor : String) (N : Nat) :
    ∃ h : (max 0 (((splitComma forwardedFor.data).length : Int) - 1 - (N : Int))).toNat <
        (splitComma forwardedFor.data).length,
      forwardedPart forwardedFor N =
        String.mk (TrimSpace ((splitComma forwardedFor.data).get
          ⟨(max 0 (((splitComma forwardedFor.data).length : Int) - 1 - (N : Int))).toNat, h⟩)) := by
  have hlt := forwarded_index_lt (splitComma forwardedFor.data).length N
    (splitComma_length_pos _)
  refine ⟨hlt, ?_⟩
  unfold forwardedPart
  simp only [List.length_map]
  have hidx : (if ((splitComma forwardedFor.data).length : Int) - 1 - (N : Int) < 0 then (0 : Int)
      else ((splitComma forwardedFor.data).length : Int) - 1 - (N : Int)) =
      max 0 (((splitComma forwardedFor.data).length : Int) - 1 - (N : Int)) := by
    split_ifs with h
    · exact (max_eq_left (le_of_lt h)).symm
    · exact (max_eq_right (not_lt.mp h)).symm
  rw [hidx]
  congr 1
  rw [List.getD_eq_getElem?_getD, List.getElem?_map, List.getElem?_eq_getElem hlt]
  simp

/-- C13. When the `X-Forwarded-For` header is not empty and is the source
selected (no source before it in the order is `RemoteAddr` or a header with a
value), `RemoteIP` returns, for every offset `N`, the trimmed entry at index
`max(0, count - 1 - N)` of the comma-split header, and that index is within
bounds. -/
theorem forwarded_entry_selected (pre post : List String) (N : Nat) (r : Request)
    (hff : r.Header "X-Forwarded-For" ≠ "")
    (hpre : ∀ l ∈ pre, l ≠ "RemoteAddr" ∧
      (l = "CF-Connecting-IP" → r.Header "CF-Connecting-IP" = "") ∧
      (l = "X-Real-IP" → r.Header "X-Real-IP" = "")) :
    ∃ h : (max 0 (((splitComma (r.Header "X-Forwarded-For").data).length : Int) - 1 -
          (N : Int))).toNat < (splitComma (r.Header "X-Forwarded-For").data).length,
      RemoteIP (pre ++ "X-Forwarded-For" :: post) N r =
        String.mk (TrimSpace ((splitComma (r.Header "X-Forwarded-For").data).get
          ⟨(max 0 (((splitComma (r.Header "X-Forwarded-For").data).length : Int) - 1 -
            (N : Int))).toNat, h⟩)) := by
  obtain ⟨h, hpart⟩ := forwardedPart_eq (r.Header "X-Forwarded-For") N
  refine ⟨h, ?_⟩
  rw [← hpart]
  unfold RemoteIP
  induction pre with
  | nil =>
    simp [remoteIPLoop, hff]
  | cons l rest ih =>
    have hl := hpre l (List.mem_cons_self _ _)
    have ih := ih (fun x hx => hpre x (List.mem_cons_of_mem _ hx))
    simp only [List.cons_append]
    unfold remoteIPLoop
    by_cases h1 : l = "CF-Connecting-IP"
    · have hcf := hl.2.1 h1
      subst h1
      rw [if_neg (by simp [hcf]), if_neg (by decide), if_neg (by simp), if_neg (by simp)]
      exact ih
    · by_cases h3 : l = "X-Forwarded-For"
      · simp [h3, hff]
      · by_cases h4 : l = "X-Real-IP"
        · have hre := hl.2.2 h4
          subst h4
          rw [if_neg (by simp), if_neg (by decide), if_neg (by simp), if_neg (by simp [hre])]
          exact ih
        · rw [if_neg (by simp [h1]), if_neg hl.1, if_neg (by simp [h3]), if_neg (by simp [h4])]
          exact ih

/-- C13 (witness): one hop from the end of ` 1.1.1.1 , 2.2.2.2 ,3.3.3.3`. -/
theorem forwarded_entry_selected_witness :
    RemoteIP (["CF-Connecting-IP"] ++ "X-Forwarded-For" :: ["RemoteAddr", "X-Real-IP"]) 1
        forwardedRequest = "2.2.2.2" :=
  (forwarded_entry_selected ["CF-Connecting-IP"] ["RemoteAddr", "X-Real-IP"] 1 forwardedRequest
    (by decide) (by decide)).elim fun _ h => h

/-! ## Rates and tracked methods -/

/-- `New` builds both engine handles under the rates configured at that time. -/
theorem New_rates (g : Globals) (o : Option ExpirableOptions) :
    (New g o).limiter.Rate = ⟨(New g o).GetTtl, (New g o).GetLimits⟩ ∧
      (New g o).globalLimiter.Rate = ⟨(New g o).GetGlobalTtl, (New g o).GetGlobalLimits⟩ :=
  ⟨rfl, rfl⟩

/-- The four rate setters leave both engine handles as they are. -/
theorem setters_keep_handles (l : Limiter) (x : Int) :
    ((l.SetLimits x).limiter = l.limiter ∧ (l.SetLimits x).globalLimiter = l.globalLimiter) ∧
    ((l.SetTtl x).limiter = l.limiter ∧ (l.SetTtl x).globalLimiter = l.globalLimiter) ∧
    ((l.SetGlobalLimits x).limiter = l.limiter ∧
      (l.SetGlobalLimits x).globalLimiter = l.globalLimiter) ∧
    ((l.SetGlobalTtl x).limiter = l.limiter ∧
      (l.SetGlobalTtl x).globalLimiter = l.globalLimiter) :=
  ⟨⟨rfl, rfl⟩, ⟨rfl, rfl⟩, ⟨rfl, rfl⟩, ⟨rfl, rfl⟩⟩

/-- C11 (failing input). `NewLimiter(2, 5 minutes)` followed by
`SetGlobalLimits(1)`, `SetGlobalTtl(5 seconds)` and `SetLimits(10)` reports the
global rate 1 per 5 seconds and the request limit 10, yet the global-tier call
of `LimitByRequest` is made under 12 per minute and the request-tier call under
2 per 5 minutes: the handles built by `New` keep the rates of that moment. -/
theorem setters_do_not_reach_engine_rates :
    ((((NewLimiter ⟨some allowStore, none, some sampleContext⟩ 2 300000000000).SetGlobalLimits
          1).SetGlobalTtl 5000000000).SetLimits 10).GetGlobalLimits = 1 ∧
    ((((NewLimiter ⟨some allowStore, none, some sampleContext⟩ 2 300000000000).SetGlobalLimits
          1).SetGlobalTtl 5000000000).SetLimits 10).GetGlobalTtl = 5000000000 ∧
    ((((NewLimiter ⟨some allowStore, none, some sampleContext⟩ 2 300000000000).SetGlobalLimits
          1).SetGlobalTtl 5000000000).SetLimits 10).GetLimits = 10 ∧
    (LimitByRequest
        ((((NewLimiter ⟨some allowStore, none, some sampleContext⟩ 2
          300000000000).SetGlobalLimits 1).SetGlobalTtl 5000000000).SetLimits 10)
        sampleRequest []).2 =
      [Event.additional [] ("ctx", none),
        Event.get Tier.global "203.0.113.7" ⟨60000000000, 12⟩ (⟨12, 1, 1, false⟩, none),
        Event.get Tier.request "203.0.113.7|/|GET||ctx" ⟨300000000000, 2⟩
          (⟨2, 1, 1, false⟩, none)] := by
  decide

/-- C17 (failing input). On `NewLimiter(2, 5 seconds)` the global limit is 12,
not 60: of thirteen anonymous requests from one address with distinct paths,
served by a counting store, twelve are admitted and the thirteenth is denied by
the global tier with `Limit = 12`, `Remaining = 0`, `Reached = true`. -/
theorem default_global_limit_is_twelve :
    (NewLimiter ⟨some countingStore, none, some sampleContext⟩ 2 5000000000).GetGlobalLimits =
        12 ∧
    (serve (NewLimiter ⟨some countingStore, none, some sampleContext⟩ 2 5000000000)
        (thirteenPaths.map pathRequest) []).1 =
      List.replicate 12 (some (⟨2, 1, 1, false⟩, none)) ++ [some (⟨12, 0, 1, true⟩, none)] := by
  decide

/-- C18. `GetMethods` returns the method of the request when the map of
tracked methods is empty (or nil) or maps that method to `true`, and the empty
string otherwise. -/
theorem GetMethods_tracked (l : Limiter) (r : Request) :
    l.GetMethods r =
      if (l.methods.getD []) = [] ∨ (l.methods.getD []).lookup r.Method = some true
      then r.Method else "" := by
  unfold Limiter.GetMethods
  cases hm : l.methods.getD [] with
  | nil => simp
  | cons e rest =>
    simp only [List.length_cons, Nat.add_one_ne_zero, if_false, false_or, reduceCtorEq]
    cases hl : List.lookup r.Method (e :: rest) with
    | none => simp
    | some b => cases b <;> simp

/-- C19 (failing input). On every limiter built by `New`, `SetMethods` with a
non-empty list panics at its first assignment, whatever the method names: `New`
never allocates the map `methods`, and assigning to an entry of a nil map
fails. -/
theorem SetMethods_panics_after_New (g : Globals) (o : Option ExpirableOptions)
    (ToUpper : String → String) (method : String) (rest : List String) :
    (New g o).SetMethods ToUpper (method :: rest) = none := by
  have hm : (New g o).methods = none := by
    rcases o with _ | ⟨ttl, max, sfx⟩
    · rfl
    · rcases ttl with (_ | n) | n <;> rcases max with (_ | m) | m <;> rfl
  simp [Limiter.SetMethods, hm]

/-! ## Failures of the additional-context extractor -/

/-- C14 (failing input). When the additional-context extractor returns the
string `partial` together with an error, `BuildKeys` discards the error and
keeps the string: the last component of the Request key is `partial`, not the
empty string. -/
theorem failed_context_string_is_kept :
    (BuildKeys (New ⟨none, none, some brokenContext⟩ none) sampleRequest []).1 =
      some ⟨["203.0.113.7"], ["203.0.113.7", "/", "GET", "", "partial"]⟩ := by
  decide

/-- C15 (failing input). On a limiter with an identity extractor and a store
but no additional-context extractor, `BuildKeys` resolves the identity and then
panics on the nil extractor: it does not complete, and there is no Request key
whose last component could be empty. -/
theorem BuildKeys_panics_on_nil_context_extractor :
    BuildKeys (New ⟨some allowStore, some aliceUser, none⟩ none) sampleRequest [] =
      (none, [Event.userId ("alice", none)]) := by
  decide

/-! ## Which key every engine call uses -/

/-- The event of checking the tier at the end of `pre` is keyed by the base
key. -/
theorem pluggableEvent_keyedBy (ip : String) (pre rest : List Pluggable) (p : Pluggable)
    (t : Trace) :
    ∀ ev ∈ pluggableEvent p pre.length ip t, Event.keyedBy ip (pre ++ p :: rest) ev = true := by
  intro ev hev
  unfold pluggableEvent at hev
  by_cases h1 : p.E.Suffix = ""
  · simp [h1] at hev
  · cases hs : p.L.Store with
    | none => simp [h1, hs] at hev
    | some s =>
      simp only [h1, hs, if_false, List.mem_singleton] at hev
      subst hev
      have hget : (pre ++ p :: rest).get? pre.length = some p := by
        induction pre with
        | nil => rfl
        | cons a as ih => exact ih
      unfold Event.keyedBy
      simp only [hget]
      simp [Pluggable.valid, h1, hs]

/-- Every event of the loop over the pluggable tiers is keyed by the base
key. -/
theorem pluggableLimitReachedLoop_keyedBy (ip : String) (rest : List Pluggable) :
    ∀ (pre : List Pluggable) (acc : Result) (t : Trace),
      Appends (Event.keyedBy ip (pre ++ rest)) t
        (pluggableLimitReachedLoop ip rest pre.length acc t).2 := by
  induction rest with
  | nil =>
    intro pre acc t
    exact Appends.refl _ _
  | cons p rest ih =>
    intro pre acc t
    have htr := pluggableLimiterValidator_trace p pre.length ip t
    have hstep : Appends (Event.keyedBy ip (pre ++ p :: rest)) t
        (pluggableLimiterValidator p pre.length ip t).2 :=
      ⟨_, htr, pluggableEvent_keyedBy ip pre rest p t⟩
    have hnext := ih (pre ++ [p])
    simp only [List.append_assoc, List.singleton_append, List.length_append, List.length_singleton]
      at hnext
    unfold pluggableLimitReachedLoop
    rcases hres : pluggableLimiterValidator p pre.length ip t with ⟨_ | ⟨lctx, _ | err⟩, t1⟩
    · simpa [hres] using hstep
    · rw [hres] at hstep
      by_cases hr : lctx.LimitReached = true
      · simpa [hr] using hstep
      · simpa [hr] using hstep.trans (hnext (lctx, none) t1)
    · simpa [hres] using hstep

/-- Every event of the pluggable chain is keyed by the base key. -/
theorem PluggableLimitReached_keyedBy (lmt : Limiter) (ip : String) (t : Trace) :
    Appends (Event.keyedBy ip (lmt.pluggableLimiter.getD [])) t
      (lmt.PluggableLimitReached ip t).2 := by
  unfold Limiter.PluggableLimitReached
  by_cases h : lmt.IsPluggableLimiterValid = true
  · cases hp : lmt.pluggableLimiter with
    | none => simpa [h] using Appends.refl _ t
    | some pl =>
      simpa [h] using pluggableLimitReachedLoop_keyedBy ip pl [] (Context.zero, none) t
  · simpa [h] using Appends.refl _ t

/-- The global-tier check, when it calls the engine, calls it on its key. -/
theorem GlobalLimitReached_keyedBy (lmt : Limiter) (ip : String) (pl : List Pluggable)
    (t : Trace) :
    Appends (Event.keyedBy ip pl) t (lmt.GlobalLimitReached ip t).2 := by
  unfold Limiter.GlobalLimitReached LibLimiter.Get
  by_cases h : lmt.IsInitialised = true
  · cases hs : lmt.globalLimiter.Store with
    | none => simpa [h] using Appends.refl _ t
    | some s =>
      rcases hres : s t ip lmt.globalLimiter.Rate with ⟨c, _ | e⟩ <;>
        simpa [h, hres] using Appends.single (Event.keyedBy ip pl) t _ (by simp [Event.keyedBy])
  · simpa [h] using Appends.refl _ t

/-- Joining a single component gives the component. -/
theorem Join_single (a sep : String) : Join [a] sep = a := rfl

/-- Every engine call of a run on the global or a pluggable tier is keyed by
the resolved address of the request. -/
theorem LimitByRequest_keyedBy (lmt : Limiter) (r : Request) (t0 : Trace) :
    Appends (Event.keyedBy (RemoteIP lmt.GetIPLookups 100 r) (lmt.pluggableLimiter.getD []))
      t0 (LimitByRequest lmt r t0).2 := by
  have hx : ∀ {t t1 : Trace}, Appends Event.isExtract t t1 →
      Appends (Event.keyedBy (RemoteIP lmt.GetIPLookups 100 r) (lmt.pluggableLimiter.getD []))
        t t1 := fun h =>
    h.weaken (by intro ev h; cases ev <;> simp_all [Event.isExtract, Event.isGet, Event.keyedBy])
  have hq : ∀ key t,
      Appends (Event.keyedBy (RemoteIP lmt.GetIPLookups 100 r) (lmt.pluggableLimiter.getD []))
        t (lmt.LimitReached key t).2 := fun key t =>
    (LimitReached_phase lmt key t).appends.weaken (by
      intro ev h
      rcases ev with _ | _ | ⟨tier, _, _, _⟩
      · rfl
      · rfl
      · cases tier <;> simp_all [Event.isRequestGet, Event.keyedBy])
  have a1 := ShouldSkipLimiter_trace lmt r t0
  rcases hs : ShouldSkipLimiter lmt r t0 with ⟨b, t1⟩
  rw [hs] at a1
  cases b with
  | true =>
    rw [LimitByRequest_skip lmt r t0 t1 hs]
    exact hx a1
  | false =>
    have a2 := BuildKeys_trace lmt r t1
    rcases hk : BuildKeys lmt r t1 with ⟨_ | keys, t2⟩
    · rw [hk] at a2
      rw [LimitByRequest_nokeys lmt r t0 t1 t2 hs hk]
      exact hx (a1.trans a2)
    · rw [hk] at a2
      by_cases hgl : keys.Global = []
      · rw [LimitByRequest_identified lmt r t0 t1 t2 keys hs hk hgl]
        exact (hx (a1.trans a2)).trans (hq _ t2)
      · have hglobal : keys.Global = [RemoteIP lmt.GetIPLookups 100 r] := by
          have := BuildKeys_global lmt r t1 t2 keys hk
          by_cases hu : (userIdToLimit lmt r t1).1 = ""
          · simpa [hu] using this
          · simp [hu] at this
            exact absurd this hgl
        have hjoin : Join keys.Global "|" = RemoteIP lmt.GetIPLookups 100 r := by
          rw [hglobal]; rfl
        have hp := PluggableLimitReached_keyedBy lmt (Join keys.Global "|") t2
        have hg := fun t => GlobalLimitReached_keyedBy lmt (Join keys.Global "|")
          (lmt.pluggableLimiter.getD []) t
        rw [hjoin] at hp hg
        rcases hpl : lmt.PluggableLimitReached (RemoteIP lmt.GetIPLookups 100 r) t2 with ⟨res, t3⟩
        have hpl' : PluggableLimits keys.Global lmt t2 = (res, t3) := by
          unfold PluggableLimits
          rw [show Join keys.Global KeyJoinIdentifier = Join keys.Global "|" from rfl, hjoin]
          exact hpl
        rw [hpl] at hp
        by_cases hstop : ∀ c, res = some (c, none) → c.Reached = true
        · rw [LimitByRequest_pluggable_stop lmt r t0 t1 t2 t3 keys res hs hk hgl hpl' hstop]
          exact (hx (a1.trans a2)).trans hp
        · push_neg at hstop
          obtain ⟨c, rfl, hc⟩ := hstop
          have hc : c.Reached = false := by simpa using hc
          have hg3 := hg t3
          rcases hgo : lmt.GlobalLimitReached (RemoteIP lmt.GetIPLookups 100 r) t3 with ⟨res2, t4⟩
          have hgo' : GlobalLimits keys.Global lmt t3 = (res2, t4) := by
            unfold GlobalLimits
            rw [show Join keys.Global KeyJoinIdentifier = Join keys.Global "|" from rfl, hjoin]
            exact hgo
          rw [hgo] at hg3
          by_cases hstop2 : ∀ g, res2 = some (g, none) → g.Reached = true
          · rw [LimitByRequest_global_stop lmt r t0 t1 t2 t3 t4 keys c res2 hs hk hgl hpl' hc hgo'
              hstop2]
            exact ((hx (a1.trans a2)).trans hp).trans hg3
          · push_neg at hstop2
            obtain ⟨g, rfl, hg2⟩ := hstop2
            have hg2 : g.Reached = false := by simpa using hg2
            rw [LimitByRequest_request lmt r t0 t1 t2 t3 t4 keys c g hs hk hgl hpl' hc hgo' hg2]
            exact (((hx (a1.trans a2)).trans hp).trans hg3).trans (hq _ t4)

/-- C16. A pluggable tier whose suffix is the empty string, wherever it stands
in the registered list, never has its engine handle called during
`LimitByRequest`: no event of the run is a call through the handle at its
index. -/
theorem empty_suffix_tier_never_called (lmt : Limiter) (r : Request) (t0 : Trace)
    (pl : List Pluggable) (i : Nat) (p : Pluggable)
    (hpl : lmt.pluggableLimiter = some pl) (hp : pl.get? i = some p)
    (hsuffix : p.E.Suffix = "") :
    ∀ ev ∈ newEvents t0 (LimitByRequest lmt r t0).2, ∀ key rate res,
      ev ≠ Event.get (Tier.pluggable i) key rate res := by
  intro ev hev key rate res heq
  have hk := (LimitByRequest_keyedBy lmt r t0).mem_newEvents ev hev
  subst heq
  unfold Event.keyedBy at hk
  simp only [hpl, Option.getD_some, hp] at hk
  simp [Pluggable.valid, hsuffix] at hk

/-- C16 (witness): the inert tier at index 1 stands between two valid ones; the
call of the run through the handle at index 2 is not a call through the handle
at index 1. -/
theorem empty_suffix_tier_never_called_witness :
    (LimitByRequest
        ((New ⟨some zeroLimitStore, none, some sampleContext⟩ none).SetPluggableLimiter
          ⟨some zeroLimitStore, none, some sampleContext⟩
          [⟨1, 3, "a"⟩, ⟨1, 0, ""⟩, ⟨1, 0, "burst"⟩])
        sampleRequest []).2 =
      [Event.additional [] ("ctx", none),
        Event.get (Tier.pluggable 0) "203.0.113.7|a" ⟨1, 3⟩ (⟨3, 0, 1, false⟩, none),
        Event.get (Tier.pluggable 2) "203.0.113.7|burst" ⟨1, 0⟩ (⟨0, 0, 1, true⟩, none)] ∧
    Event.get (Tier.pluggable 2) "203.0.113.7|burst" ⟨1, 0⟩ (⟨0, 0, 1, true⟩, none) ≠
      Event.get (Tier.pluggable 1) "203.0.113.7|" ⟨1, 0⟩ (⟨0, 0, 1, true⟩, none) :=
  ⟨rfl,
    empty_suffix_tier_never_called
      ((New ⟨some zeroLimitStore, none, some sampleContext⟩ none).SetPluggableLimiter
        ⟨some zeroLimitStore, none, some sampleContext⟩
        [⟨1, 3, "a"⟩, ⟨1, 0, ""⟩, ⟨1, 0, "burst"⟩])
      sampleRequest []
      (NewPluggableLimiter (some zeroLimitStore) [⟨1, 3, "a"⟩, ⟨1, 0, ""⟩, ⟨1, 0, "burst"⟩]) 1
      ⟨⟨1, 0, ""⟩, ⟨some zeroLimitStore, ⟨1, 0⟩⟩⟩ rfl rfl rfl
      (Event.get (Tier.pluggable 2) "203.0.113.7|burst" ⟨1, 0⟩ (⟨0, 0, 1, true⟩, none))
      (by decide) "203.0.113.7|" ⟨1, 0⟩ (⟨0, 0, 1, true⟩, none)⟩

/-- The identity seen by `ShouldSkipLimiter` is absent exactly for anonymous
requests. -/
theorem userIdPresent_eq_false_iff (lmt : Limiter) (r : Request) (t : Trace) :
    (userIdPresent lmt r t).1 = false ↔
      (lmt.GetIncludeUserId = false ∨ (lmt.GetUserIdFromContext r t).1.2 ≠ none ∨
        (lmt.GetUserIdFromContext r t).1.1 = "") := by
  unfold userIdPresent
  by_cases hi : lmt.GetIncludeUserId = true
  · rcases hres : lmt.GetUserIdFromContext r t with ⟨⟨u, _ | e⟩, t1⟩ <;> simp [hi]
  · simp [hi]

/-- Either a run calls neither the global nor a pluggable tier, or the request
was not skipped and is anonymous. -/
theorem LimitByRequest_tiers_or (lmt : Limiter) (r : Request) (t0 : Trace) :
    Appends (fun ev => !ev.isGlobalGet && !ev.isPluggableGet) t0 (LimitByRequest lmt r t0).2 ∨
      ∃ t1 keys t2,
        ShouldSkipLimiter lmt r t0 = (false, t1) ∧ BuildKeys lmt r t1 = (some keys, t2) ∧
        keys.Global ≠ [] := by
  have hx : ∀ {t t1 : Trace}, Appends Event.isExtract t t1 →
      Appends (fun ev => !ev.isGlobalGet && !ev.isPluggableGet) t t1 := fun h =>
    h.weaken (by intro ev h; simp [(Event.isExtract_tiers ev h).1, (Event.isExtract_tiers ev h).2.1])
  have a1 := ShouldSkipLimiter_trace lmt r t0
  rcases hs : ShouldSkipLimiter lmt r t0 with ⟨b, t1⟩
  rw [hs] at a1
  cases b with
  | true =>
    left
    rw [LimitByRequest_skip lmt r t0 t1 hs]
    exact hx a1
  | false =>
    have a2 := BuildKeys_trace lmt r t1
    rcases hk : BuildKeys lmt r t1 with ⟨_ | keys, t2⟩
    · rw [hk] at a2
      left
      rw [LimitByRequest_nokeys lmt r t0 t1 t2 hs hk]
      exact hx (a1.trans a2)
    · rw [hk] at a2
      by_cases hgl : keys.Global = []
      · left
        rw [LimitByRequest_identified lmt r t0 t1 t2 keys hs hk hgl]
        exact (hx (a1.trans a2)).trans
          ((LimitReached_phase lmt _ t2).appends.weaken
            (by intro ev h; simp [(Event.isRequestGet_tiers ev h).1, (Event.isRequestGet_tiers ev h).2]))
      · right
        exact ⟨t1, keys, t2, rfl, hk, hgl⟩

/-- C20. When the identity extractor, if it is consulted at all, answers its two
invocations (the one of `ShouldSkipLimiter` and the one of `BuildKeys`) alike,
every engine call of
`LimitByRequest` on the global tier or on a pluggable tier is made on a key
whose address component, the resolved address of the request, is not empty: the
key is the address itself or the address followed by `|suffix`. -/
theorem tier_keys_carry_address (lmt : Limiter) (r : Request) (t0 : Trace)
    (hsame : lmt.GetIncludeUserId = true →
      (lmt.GetUserIdFromContext r t0).1 =
        (lmt.GetUserIdFromContext r (ShouldSkipLimiter lmt r t0).2).1) :
    ∀ ev ∈ newEvents t0 (LimitByRequest lmt r t0).2, ∀ tier key rate res,
      ev = Event.get tier key rate res → tier ≠ Tier.request →
        RemoteIP lmt.GetIPLookups 100 r ≠ "" ∧
        (key = RemoteIP lmt.GetIPLookups 100 r ∨
          ∃ suffix, key = RemoteIP lmt.GetIPLookups 100 r ++ "|" ++ suffix) := by
  intro ev hev tier key rate res heq hne
  subst heq
  have hk := (LimitByRequest_keyedBy lmt r t0).mem_newEvents _ hev
  constructor
  · rcases LimitByRequest_tiers_or lmt r t0 with h | ⟨t1, keys, t2, hs, hkeys, hgl⟩
    · have := h.mem_newEvents _ hev
      cases tier <;> simp_all [Event.isGlobalGet, Event.isPluggableGet]
    · rw [hs] at hsame
      simp only at hsame
      have hempty : (userIdToLimit lmt r t1).1 = "" := by
        have := BuildKeys_global lmt r t1 t2 keys hkeys
        by_contra hu
        simp [hu] at this
        exact hgl this
      have hanon := (userIdToLimit_eq_empty_iff lmt r t1).mp hempty
      have hpres : (userIdPresent lmt r t0).1 = false := by
        by_cases hinc : lmt.GetIncludeUserId = true
        · rw [← hsame hinc] at hanon
          exact (userIdPresent_eq_false_iff lmt r t0).mpr hanon
        · exact (userIdPresent_eq_false_iff lmt r t0).mpr (Or.inl (by simpa using hinc))
      have hskip : (ShouldSkipLimiter lmt r t0).1 = false := by rw [hs]
      unfold ShouldSkipLimiter at hskip
      simp only [hpres] at hskip
      intro hip
      simp [hip] at hskip
  · rcases tier with _ | _ | i
    · exact absurd rfl hne
    · left
      simpa [Event.keyedBy] using hk
    · right
      unfold Event.keyedBy at hk
      cases hget : (lmt.pluggableLimiter.getD []).get? i with
      | none =>
        simp only [hget] at hk
        exact absurd hk (by decide)
      | some p =>
        simp only [hget, Bool.and_eq_true, decide_eq_true_eq] at hk
        exact ⟨p.E.Suffix, hk.1.2⟩

/-- C20 (witness): the call of an anonymous request on the tier `burst`, with an
identity extractor that finds nobody both times. -/
theorem tier_keys_carry_address_witness :
    RemoteIP
        ((New ⟨some zeroLimitStore, some fun _ _ => ("", none), some sampleContext⟩
          none).SetPluggableLimiter
          ⟨some zeroLimitStore, none, some sampleContext⟩
          [⟨1, 3, "a"⟩, ⟨1, 0, ""⟩, ⟨1, 0, "burst"⟩]).GetIPLookups 100 sampleRequest ≠ "" ∧
      ("203.0.113.7|burst" = "203.0.113.7" ∨
        ∃ suffix, "203.0.113.7|burst" = "203.0.113.7" ++ "|" ++ suffix) :=
  tier_keys_carry_address
    ((New ⟨some zeroLimitStore, some fun _ _ => ("", none), some sampleContext⟩
      none).SetPluggableLimiter
      ⟨some zeroLimitStore, none, some sampleContext⟩
      [⟨1, 3, "a"⟩, ⟨1, 0, ""⟩, ⟨1, 0, "burst"⟩])
    sampleRequest [] (fun _ => rfl)
    (Event.get (Tier.pluggable 2) "203.0.113.7|burst" ⟨1, 0⟩ (⟨0, 0, 1, true⟩, none))
    (by decide) (Tier.pluggable 2) "203.0.113.7|burst" ⟨1, 0⟩ (⟨0, 0, 1, true⟩, none) rfl
    (by decide)

/-- Without that assumption the empty bucket is reached: an extractor that
finds `alice` for `ShouldSkipLimiter` and nobody for `BuildKeys` sends a request
without address to the global tier on the empty key. -/
theorem flipping_identity_reaches_empty_key :
    (LimitByRequest (New ⟨some allowStore, some flipUser, some sampleContext⟩ none) bareRequest
        []).2 =
      [Event.userId ("alice", none), Event.userId ("", none), Event.additional [] ("ctx", none),
        Event.get Tier.global "" ⟨60000000000, 12⟩ (⟨12, 1, 1, false⟩, none),
        Event.get Tier.request "|/|GET||ctx" ⟨60000000000, 5⟩ (⟨5, 1, 1, false⟩, none)] := by
  decide

/-! ## Keys do not collide -/

/-- The characters of a join of two or more elements. -/
theorem Join_cons_cons_data (a b : String) (rest : List String) (sep : String) :
    (Join (a :: b :: rest) sep).data = a.data ++ sep.data ++ (Join (b :: rest) sep).data := by
  simp [Join, String.data_append]

/-- A join of two or more elements on `|` contains the delimiter. -/
theorem Join_cons_cons_mem (a b : String) (rest : List String) :
    '|' ∈ (Join (a :: b :: rest) "|").data := by
  rw [Join_cons_cons_data]
  simp

/-- A list of characters splits at its first delimiter in one way only. -/
theorem split_at_delimiter_unique (c : Char) :
    ∀ (x y u v : List Char), c ∉ x → c ∉ y → x ++ c :: u = y ++ c :: v → x = y ∧ u = v := by
  intro x
  induction x with
  | nil =>
    intro y u v _ hy h
    cases y with
    | nil => simpa using h
    | cons d y1 =>
      simp only [List.nil_append, List.cons_append, List.cons.injEq] at h
      exact absurd (by simp [h.1]) hy
  | cons a x1 ih =>
    intro y u v hx hy h
    cases y with
    | nil =>
      simp only [List.nil_append, List.cons_append, List.cons.injEq] at h
      exact absurd (by simp [h.1]) hx
    | cons d y1 =>
      simp only [List.cons_append, List.cons.injEq] at h
      have hx1 : c ∉ x1 := fun hm => hx (List.mem_cons_of_mem _ hm)
      have hy1 : c ∉ y1 := fun hm => hy (List.mem_cons_of_mem _ hm)
      obtain ⟨h1, h2⟩ := ih y1 u v hx1 hy1 h.2
      exact ⟨by rw [h.1, h1], h2⟩

/-- Joining on `|` is injective on non-empty lists of components that do not
contain the delimiter. -/
theorem Join_injective (l1 : List String) :
    ∀ (a b : String) (l2 : List String),
      (∀ c ∈ a :: l1, '|' ∉ c.data) → (∀ c ∈ b :: l2, '|' ∉ c.data) →
      Join (a :: l1) "|" = Join (b :: l2) "|" → a :: l1 = b :: l2 := by
  induction l1 with
  | nil =>
    intro a b l2 h1 _ h
    cases l2 with
    | nil => simpa [Join] using h
    | cons b1 r2 =>
      have hmem := Join_cons_cons_mem b b1 r2
      rw [← h] at hmem
      exact absurd hmem (h1 a (List.mem_cons_self _ _))
  | cons a1 r1 ih =>
    intro a b l2 h1 h2 h
    cases l2 with
    | nil =>
      have hmem := Join_cons_cons_mem a a1 r1
      rw [h] at hmem
      exact absurd hmem (h2 b (List.mem_cons_self _ _))
    | cons b1 r2 =>
      have hd := congrArg String.data h
      rw [Join_cons_cons_data, Join_cons_cons_data] at hd
      have hd1 : a.data ++ '|' :: (Join (a1 :: r1) "|").data =
          b.data ++ '|' :: (Join (b1 :: r2) "|").data := by simpa using hd
      obtain ⟨e1, e2⟩ := split_at_delimiter_unique '|' _ _ _ _
        (h1 a (List.mem_cons_self _ _)) (h2 b (List.mem_cons_self _ _)) hd1
      have hab : a = b := String.ext e1
      have hrest := ih a1 b1 r2 (fun c hc => h1 c (List.mem_cons_of_mem _ hc))
        (fun c hc => h2 c (List.mem_cons_of_mem _ hc)) (String.ext e2)
      rw [hab, hrest]

/-- The shape of the keys `BuildKeys` returns: the Request key has at least
three components and the Global key is empty or the first of them alone. -/
theorem BuildKeys_shape (lmt : Limiter) (r : Request) (t t2 : Trace) (keys : LimiterKeys)
    (h : BuildKeys lmt r t = (some keys, t2)) :
    ∃ c1 c2 c3 rest, keys.Request = c1 :: c2 :: c3 :: rest ∧
      (keys.Global = [] ∨ keys.Global = [c1]) := by
  cases hg : lmt.additionalContextFunc with
  | none =>
    have := BuildKeys_none lmt r t hg
    rw [h] at this
    simp at this
  | some g =>
    rw [BuildKeys_eq lmt r t g hg] at h
    simp only [Prod.mk.injEq, Option.some.injEq] at h
    rw [← h.1]
    by_cases hurl : lmt.GetIgnoreURL = true <;>
      by_cases hu : (userIdToLimit lmt r t).1 = "" <;> simp [hurl, hu]

/-- C21. For the keys `BuildKeys` returns, when no component of the Global and
Request keys and no pluggable suffix contains the delimiter `|`, the three kinds
of counter key are pairwise distinct strings: the global key
`Join(globalKey,"|")`, the pluggable key `Join(globalKey,"|") + "|" + suffix`
of every such suffix, and the request key `Join(requestKey,"|")`. -/
theorem three_key_kinds_distinct (lmt : Limiter) (r : Request) (t t2 : Trace)
    (keys : LimiterKeys) (suffix : String)
    (hkeys : BuildKeys lmt r t = (some keys, t2))
    (hcomp : ∀ c ∈ keys.Global ++ keys.Request, '|' ∉ c.data)
    (hsuffix : '|' ∉ suffix.data) :
    Join keys.Global "|" ≠ Join keys.Global "|" ++ "|" ++ suffix ∧
      Join keys.Global "|" ≠ Join keys.Request "|" ∧
      Join keys.Global "|" ++ "|" ++ suffix ≠ Join keys.Request "|" := by
  obtain ⟨c1, c2, c3, rest, hreq, hglob⟩ := BuildKeys_shape lmt r t t2 keys hkeys
  have hfree : '|' ∉ (Join keys.Global "|").data := by
    rcases hglob with hg | hg
    · rw [hg]; simp [Join]
    · rw [hg]
      exact hcomp c1 (by simp [hg])
  have hc1 : '|' ∉ c1.data := hcomp c1 (by simp [hreq])
  have hplug : '|' ∈ (Join keys.Global "|" ++ "|" ++ suffix).data := by
    simp [String.data_append]
  have hrq : '|' ∈ (Join keys.Request "|").data := by
    rw [hreq]; exact Join_cons_cons_mem _ _ _
  refine ⟨?_, ?_, ?_⟩
  · intro h
    rw [← h] at hplug
    exact hfree hplug
  · intro h
    rw [← h] at hrq
    exact hfree hrq
  · intro h
    have hd := congrArg String.data h
    rw [hreq, Join_cons_cons_data] at hd
    have hd1 : (Join keys.Global "|").data ++ '|' :: suffix.data =
        c1.data ++ '|' :: (Join (c2 :: c3 :: rest) "|").data := by
      simpa [String.data_append] using hd
    obtain ⟨_, e2⟩ := split_at_delimiter_unique '|' _ _ _ _ hfree hc1 hd1
    have hmem := Join_cons_cons_mem c2 c3 rest
    rw [← e2] at hmem
    exact hsuffix hmem

/-- C21 (witness): the keys of an anonymous `GET /` and the suffix `burst`. -/
theorem three_key_kinds_distinct_witness :
    "203.0.113.7" ≠ "203.0.113.7" ++ "|" ++ "burst" ∧
      "203.0.113.7" ≠ "203.0.113.7|/|GET||ctx" ∧
      "203.0.113.7" ++ "|" ++ "burst" ≠ "203.0.113.7|/|GET||ctx" :=
  three_key_kinds_distinct (New ⟨none, none, some sampleContext⟩ none) sampleRequest []
    [Event.additional [] ("ctx", none)]
    ⟨["203.0.113.7"], ["203.0.113.7", "/", "GET", "", "ctx"]⟩ "burst" rfl (by decide) (by decide)

/-- C22. For one limiter and two requests whose Request keys differ at some
position `i`, when no component of either key contains the delimiter `|`, the
two joined request-tier keys `Join(requestKey,"|")` are different strings. -/
theorem distinct_request_keys_distinct_buckets (lmt : Limiter) (r1 r2 : Request)
    (t1 u1 t2 u2 : Trace) (keys1 keys2 : LimiterKeys) (i : Nat)
    (h1 : BuildKeys lmt r1 t1 = (some keys1, u1))
    (h2 : BuildKeys lmt r2 t2 = (some keys2, u2))
    (hdiff : keys1.Request.get? i ≠ keys2.Request.get? i)
    (hfree1 : ∀ c ∈ keys1.Request, '|' ∉ c.data)
    (hfree2 : ∀ c ∈ keys2.Request, '|' ∉ c.data) :
    Join keys1.Request "|" ≠ Join keys2.Request "|" := by
  obtain ⟨a, a2, a3, ra, hreq1, _⟩ := BuildKeys_shape lmt r1 t1 u1 keys1 h1
  obtain ⟨b, b2, b3, rb, hreq2, _⟩ := BuildKeys_shape lmt r2 t2 u2 keys2 h2
  intro h
  apply hdiff
  rw [hreq1, hreq2] at h
  rw [hreq1] at hfree1
  rw [hreq2] at hfree2
  rw [hreq1, hreq2, Join_injective _ a b _ hfree1 hfree2 h]

/-- C22 (witness): the same caller on the paths `/` and `/other`. -/
theorem distinct_request_keys_distinct_buckets_witness :
    (BuildKeys (New ⟨none, none, some sampleContext⟩ none) sampleRequest []).1 =
        some ⟨["203.0.113.7"], ["203.0.113.7", "/", "GET", "", "ctx"]⟩ ∧
      (BuildKeys (New ⟨none, none, some sampleContext⟩ none) (pathRequest "/other") []).1 =
        some ⟨["203.0.113.7"], ["203.0.113.7", "/other", "GET", "", "ctx"]⟩ ∧
      "203.0.113.7|/|GET||ctx" ≠ "203.0.113.7|/other|GET||ctx" :=
  ⟨rfl, rfl,
    distinct_request_keys_distinct_buckets (New ⟨none, none, some sampleContext⟩ none)
      sampleRequest (pathRequest "/other") [] [Event.additional [] ("ctx", none)] []
      [Event.additional [] ("ctx", none)]
      ⟨["203.0.113.7"], ["203.0.113.7", "/", "GET", "", "ctx"]⟩
      ⟨["203.0.113.7"], ["203.0.113.7", "/other", "GET", "", "ctx"]⟩ 1 rfl rfl (by decide)
      (by decide) (by decide)⟩

end GoRateLimit
